import Mathlib

/-!
# gosnake: the per-frame state transition of `main.go`

A shallow embedding of `Game.Update`, `Game.reset`, `Game.resetBody` and `newGame`.

Modelling conventions.

* Go's `int` is modelled by `Int`; `/` and `%` are Go's truncating operators, `Int.tdiv` and
  `Int.tmod`.  Grid coordinates stay within `[-1, 32]` and the counters stay far from `2^63` in any
  run of the game, so wrap-around of 64-bit integers is not modelled.
* A Go run-time panic (integer division by zero, index out of range, slice bounds out of range) is
  the result `none`; `some g` is the state left behind by a call that returned `nil`.
* A slice is modelled by the list of its `len` elements.  The slice expression `g.body[:3]` is in
  range in Go whenever `3 ≤ cap(g.body)`; as only the length is tracked, the model demands
  `3 ≤ len(g.body)` (which implies it), so the model never succeeds where Go would panic.
* The key edges reported by `inpututil.IsKeyJustPressed` are fields of `Input`.  So is the
  random generator behind the two calls of `rand.Intn` (made only when an apple is eaten): for
  each call, the value it would return as a function of the argument `n`.  The arguments
  themselves, `numColumns - 1` and `numRows - 1`, are in `eatApple`, as in the source.
* The fields `snakeColor` and `appleColor` are written once by `newGame` and only read by `Draw`;
  they are left out of the state.
-/

namespace GoSnake

/-! ## Constants -/

def screenWidth : Int := 640
def screenHeight : Int := 480
def gridSize : Int := 20
def numColumns : Int := Int.tdiv screenWidth gridSize
def numRows : Int := Int.tdiv screenHeight gridSize

def dirNone : Int := 0
def dirLeft : Int := 1
def dirRight : Int := 2
def dirDown : Int := 3
def dirUp : Int := 4

/-! ## Data model -/

structure Position where
  X : Int
  Y : Int
deriving DecidableEq, Repr

structure Game where
  body : List Position
  apple : Position
  timer : Int
  speed : Int
  score : Int
  bestScore : Int
  moveDirection : Int
deriving DecidableEq, Repr

/-- What one frame reads from the outside world: the four key edges
`IsKeyJustPressed(KeyS / KeyW / KeyD / KeyA)` and the state of the random generator, given by
what the first and the second call of `rand.Intn` of this frame return for an argument `n`. -/
structure Input where
  keyS : Bool
  keyW : Bool
  keyD : Bool
  keyA : Bool
  randX : Int → Int
  randY : Int → Int

/-! ## `resetBody` and `reset` -/

/-- The local `startPos` of `resetBody`. -/
def startPos : Position := { X := Int.tdiv numColumns 2, Y := Int.tdiv numRows 2 }

/-- The loop `for i := 0; i < len(g.body); i++` of `resetBody`; the first argument counts the
iterations still to run, the second is `i`. -/
def resetBodyLoop : Nat → Nat → List Position → List Position
  | 0, _, b => b
  | n + 1, i, b => resetBodyLoop n (i + 1) (b.set i { X := startPos.X, Y := startPos.Y })

def resetBody (g : Game) : Game :=
  { g with body := resetBodyLoop g.body.length 0 g.body }

def reset (g : Game) : Option Game :=
  if 3 ≤ g.body.length then
    some (resetBody { g with
      apple := { X := 3, Y := 3 }
      speed := 15
      score := 0
      body := g.body.take 3
      moveDirection := dirNone })
  else none

/-! ## `Update` -/

/-- The `switch` on the key edges: the direction assigned by the first case whose condition
holds, `none` when no case fires. -/
def keyCase (inp : Input) (d : Int) : Option Int :=
  if inp.keyS ∧ d ≠ dirUp then some dirDown
  else if inp.keyW ∧ d ≠ dirDown then some dirUp
  else if inp.keyD ∧ d ≠ dirLeft then some dirRight
  else if inp.keyA ∧ d ≠ dirRight then some dirLeft
  else none

/-- The value of `g.moveDirection` after the key `switch`. -/
def handleKeys (inp : Input) (d : Int) : Int :=
  (keyCase inp d).getD d

/-- The condition `g.timer%(60/g.speed) == 0 && g.moveDirection != dirNone`; both the division
and the remainder are evaluated before `&&`, and each panics on a zero divisor. -/
def moveDue (g : Game) : Option Bool :=
  if g.speed = 0 then none
  else if Int.tdiv 60 g.speed = 0 then none
  else some (decide (Int.tmod g.timer (Int.tdiv 60 g.speed) = 0) && decide (g.moveDirection ≠ dirNone))

/-- The loop `for i := len(g.body) - 1; i > 0; i--` that copies `body[i-1]` into `body[i]`;
the first argument is `i`. -/
def shiftLoop : Nat → List Position → Option (List Position)
  | 0, b => some b
  | i + 1, b =>
    match b[i]? with
    | some p =>
      if i + 1 < b.length then shiftLoop i (b.set (i + 1) { X := p.X, Y := p.Y }) else none
    | none => none

def shiftBody (b : List Position) : Option (List Position) :=
  shiftLoop (b.length - 1) b

/-- The `switch g.moveDirection` that advances `body[0]`. -/
def moveHead (dir : Int) (b : List Position) : Option (List Position) :=
  if dir = dirLeft then
    match b with
    | [] => none
    | h :: t => some ({ h with X := h.X - 1 } :: t)
  else if dir = dirRight then
    match b with
    | [] => none
    | h :: t => some ({ h with X := h.X + 1 } :: t)
  else if dir = dirUp then
    match b with
    | [] => none
    | h :: t => some ({ h with Y := h.Y - 1 } :: t)
  else if dir = dirDown then
    match b with
    | [] => none
    | h :: t => some ({ h with Y := h.Y + 1 } :: t)
  else some b

/-- The loop `for i := len(g.body) - 1; i > 0; i--` that compares `body[i]` with `body[0]`;
`some true` when it reaches `g.reset()`, `some false` when it runs to its end. -/
def hitLoop : Nat → List Position → Option Bool
  | 0, _ => some false
  | i + 1, b =>
    match b[i + 1]?, b[0]? with
    | some p, some h => if p.X = h.X ∧ p.Y = h.Y then some true else hitLoop i b
    | _, _ => none

def selfHit (b : List Position) : Option Bool :=
  hitLoop (b.length - 1) b

/-- The four `if` statements under `// wrap across screen`. -/
def wrapHead : List Position → Option (List Position)
  | [] => none
  | h :: t =>
    let h1 := if h.X < 0 then { h with X := numColumns - 1 } else h
    let h2 := if h1.X > numColumns - 1 then { h1 with X := 0 } else h1
    let h3 := if h2.Y < 0 then { h2 with Y := numRows - 1 } else h2
    let h4 := if h3.Y > numRows - 1 then { h3 with Y := 0 } else h3
    some (h4 :: t)

/-- The call `rand.Intn(n)` of Go's `math/rand`: it panics when `n ≤ 0`, and otherwise returns
what the generator answers to the argument `n`. -/
def Intn (answer : Int → Int) (n : Int) : Option Int :=
  if n ≤ 0 then none else some (answer n)

/-- The block under `// nom the apple`. -/
def eatApple (g : Game) (inp : Input) : Option Game :=
  match g.body with
  | [] => none
  | h :: t =>
    if h.X = g.apple.X ∧ h.Y = g.apple.Y then
      (Intn inp.randX (numColumns - 1)).bind fun appleX =>
      (Intn inp.randY (numRows - 1)).bind fun appleY =>
      let score := g.score + 1
      some { g with
        apple := { X := appleX, Y := appleY }
        body := (h :: t) ++ [{ X := h.X, Y := h.Y }]
        score := score
        bestScore := if score > g.bestScore then score else g.bestScore }
    else some g

/-- The body of the `if` of `Update`: `some (g, true)` when it left through the `return nil`
after `g.reset()`, `some (g, false)` when it ran to its end. -/
def moveSnake (g : Game) (inp : Input) : Option (Game × Bool) :=
  (shiftBody g.body).bind fun b1 =>
  (moveHead g.moveDirection b1).bind fun b2 =>
  (selfHit b2).bind fun hit =>
  if hit then (reset { g with body := b2 }).map fun g1 => (g1, true)
  else
    (wrapHead b2).bind fun b3 =>
    (eatApple { g with body := b3 } inp).map fun g1 => (g1, false)

def Update (g : Game) (inp : Input) : Option Game :=
  let g1 := { g with moveDirection := handleKeys inp g.moveDirection }
  (moveDue g1).bind fun due =>
  if due then
    (moveSnake g1 inp).map fun r =>
      if r.2 then r.1 else { r.1 with timer := r.1.timer + 1 }
  else some { g1 with timer := g1.timer + 1 }

/-! ## `newGame` and runs -/

def newGame : Game :=
  resetBody {
    speed := 15
    body := List.replicate 3 { X := 0, Y := 0 }
    apple := { X := 3, Y := 3 }
    moveDirection := dirNone
    score := 0
    bestScore := 0
    timer := 0 }

/-- A sequence of `Update` calls, one per input. -/
def run : Game → List Input → Option Game
  | g, [] => some g
  | g, inp :: rest => (Update g inp).bind fun g1 => run g1 rest

/-- The states the game can be in: `newGame` and whatever `Update` makes of such a state. -/
inductive Reachable : Game → Prop
  | start : Reachable newGame
  | step {g g1 : Game} (inp : Input) : Reachable g → Update g inp = some g1 → Reachable g1

/-! ## Notions used to state the properties -/

/-- The frame is a move tick: the condition of the `if` of `Update`, evaluated after the key
`switch`, is defined and true. -/
def isMoveTick (g : Game) (inp : Input) : Prop :=
  moveDue { g with moveDirection := handleKeys inp g.moveDirection } = some true

instance (g : Game) (inp : Input) : Decidable (isMoveTick g inp) :=
  inferInstanceAs (Decidable (_ = _))

/-- The body after the body shift and the head advance of this frame. -/
def advance (g : Game) (inp : Input) : Option (List Position) :=
  (shiftBody g.body).bind (moveHead (handleKeys inp g.moveDirection))

/-- Some non-head segment of `b` has the same `(X, Y)` as the head `b[0]`. -/
def HeadOnBody (b : List Position) : Prop :=
  ∃ i p q, 0 < i ∧ b[i]? = some p ∧ b[0]? = some q ∧ p.X = q.X ∧ p.Y = q.Y

/-- This frame's move ends in a self-collision: after the body shift and the head advance some
non-head segment lies on the head. -/
def bitesItself (g : Game) (inp : Input) : Prop :=
  ∃ b, advance g inp = some b ∧ HeadOnBody b

/-- The body after the body shift, the head advance and the wrap of this frame. -/
def wrapped (g : Game) (inp : Input) : Option (List Position) :=
  (advance g inp).bind wrapHead

/-- The head after the body shift, the head advance and the wrap of this frame. -/
def newHead (g : Game) (inp : Input) : Option Position :=
  (wrapped g inp).bind List.head?

/-- The unit step of a direction: `(-1, 0)` for Left, `(1, 0)` for Right, `(0, -1)` for Up and
`(0, 1)` for Down. -/
def delta (dir : Int) : Int × Int :=
  if dir = dirLeft then (-1, 0)
  else if dir = dirRight then (1, 0)
  else if dir = dirUp then (0, -1)
  else if dir = dirDown then (0, 1)
  else (0, 0)

/-- The cell lies on the grid. -/
def inGrid (p : Position) : Prop :=
  0 ≤ p.X ∧ p.X < numColumns ∧ 0 ≤ p.Y ∧ p.Y < numRows

instance (p : Position) : Decidable (inGrid p) := by
  unfold inGrid
  infer_instance

/-- The head after the `switch g.moveDirection`. -/
def stepHead (dir : Int) (h : Position) : Position :=
  if dir = dirLeft then { h with X := h.X - 1 }
  else if dir = dirRight then { h with X := h.X + 1 }
  else if dir = dirUp then { h with Y := h.Y - 1 }
  else if dir = dirDown then { h with Y := h.Y + 1 }
  else h

/-- The head after the four `if` statements of the wrap. -/
def wrapPos (h : Position) : Position :=
  let h1 := if h.X < 0 then { h with X := numColumns - 1 } else h
  let h2 := if h1.X > numColumns - 1 then { h1 with X := 0 } else h1
  let h3 := if h2.Y < 0 then { h2 with Y := numRows - 1 } else h2
  if h3.Y > numRows - 1 then { h3 with Y := 0 } else h3

/-- An input without key edges, whose generator answers `rand.Intn(n)` with `rx mod n` on the
first call and with `ry mod n` on the second. -/
def noKeys (rx ry : Int) : Input :=
  { keyS := false
    keyW := false
    keyD := false
    keyA := false
    randX := fun n => rx % n
    randY := fun n => ry % n }

/-- What every reachable state satisfies: the speed is `15`, the body has at least three
segments and every body cell lies on the grid. -/
def Inv (g : Game) : Prop :=
  g.speed = 15 ∧ 3 ≤ g.body.length ∧ ∀ p ∈ g.body, inGrid p

/-- The input in which exactly one directional key has an edge, the key that requests
direction `d`: `S` for Down, `W` for Up, `D` for Right, `A` for Left.  The generator answers
`rand.Intn(n)` with `rx mod n` on the first call and with `ry mod n` on the second. -/
def pressOnly (d rx ry : Int) : Input :=
  { keyS := decide (d = dirDown)
    keyW := decide (d = dirUp)
    keyD := decide (d = dirRight)
    keyA := decide (d = dirLeft)
    randX := fun n => rx % n
    randY := fun n => ry % n }

/-- The directions `c` and `d` are exact opposites: the pairs Left/Right and Up/Down. -/
def isOpposite (c d : Int) : Prop :=
  (c = dirLeft ∧ d = dirRight) ∨ (c = dirRight ∧ d = dirLeft) ∨
    (c = dirUp ∧ d = dirDown) ∨ (c = dirDown ∧ d = dirUp)

instance (c d : Int) : Decidable (isOpposite c d) := by
  unfold isOpposite
  infer_instance

/-- Eight frames: an edge of `A` on the first, of `W` on the sixth, of `D` on the seventh and no
key edge on the others. -/
def biteFrames : List Input :=
  [pressOnly dirLeft 0 0, noKeys 0 0, noKeys 0 0, noKeys 0 0, noKeys 0 0, pressOnly dirUp 0 0,
    pressOnly dirRight 0 0, noKeys 0 0]

/-- A run of frames on none of which the snake moves: the state after them, and `none` when one
of the frames is a move tick or `Update` does not return. -/
def coast : Game → List Input → Option Game
  | g, [] => some g
  | g, inp :: rest =>
    if isMoveTick g inp then none else (Update g inp).bind fun g1 => coast g1 rest

/-- The frame has an edge of some directional key. -/
def hasKeyEdge (inp : Input) : Bool :=
  inp.keyS || inp.keyW || inp.keyD || inp.keyA

/-- The number of frames with a key edge. -/
def keyFrames (inps : List Input) : Nat :=
  (inps.filter hasKeyEdge).length

/-- The number of directional keys with an edge on the frame. -/
def keyCount (inp : Input) : Nat :=
  inp.keyS.toNat + inp.keyW.toNat + inp.keyD.toNat + inp.keyA.toNat

/-- Sixty-four frames: an edge of `A` on the first and no key edge on the others. -/
def leftFrames : List Input :=
  pressOnly dirLeft 0 0 :: List.replicate 63 (noKeys 0 0)

/-- Sixty-eight frames: `leftFrames`, a frame without key edge, an edge of `W`, an edge of `D`
and a frame without key edge. -/
def wrapFrames : List Input :=
  leftFrames ++ [noKeys 0 0, pressOnly dirUp 0 0, pressOnly dirRight 0 0, noKeys 0 0]

/-- Eighty-five frames: an edge of `A` on the first, an edge of `W` on the fiftieth, no key edge
on the others, and on the last a generator that answers `30 mod n` and `22 mod n`. -/
def eatFrames : List Input :=
  pressOnly dirLeft 0 0 :: List.replicate 48 (noKeys 0 0) ++ [pressOnly dirUp 0 0] ++
    List.replicate 34 (noKeys 0 0) ++ [noKeys 30 22]

/-- The state after the frames `eatFrames`: the snake has just eaten its first apple. -/
def afterEating : Game :=
  { body := [⟨3, 3⟩, ⟨3, 4⟩, ⟨3, 5⟩, ⟨3, 3⟩], apple := ⟨30, 22⟩, timer := 85, speed := 15,
    score := 1, bestScore := 1, moveDirection := dirUp }

/-- The state after the first eighty-four frames of `eatFrames`: the head is one cell below the
apple and the next frame is a move Up. -/
def beforeEating : Game :=
  { body := [⟨3, 4⟩, ⟨3, 5⟩, ⟨3, 6⟩], apple := ⟨3, 3⟩, timer := 84, speed := 15,
    score := 0, bestScore := 0, moveDirection := dirUp }

/-- The cases of the key `switch` in their order, as the claim lists them: the key edge and the
direction it requests, `S` Down, `W` Up, `D` Right, `A` Left. -/
def keyOrder (inp : Input) : List (Bool × Int) :=
  [(inp.keyS, dirDown), (inp.keyW, dirUp), (inp.keyD, dirRight), (inp.keyA, dirLeft)]

/-- Key priority in the words of the claim: the direction of the first case, in the order Down,
Up, Right, Left, whose key is pressed and whose direction is not the exact opposite of the
current direction `c`; `none` when no case matches. -/
def firstAccepted (inp : Input) (c : Int) : Option Int :=
  ((keyOrder inp).find? fun kd => kd.1 && decide (¬ isOpposite c kd.2)).map Prod.snd

/-- The assumption on the generator: each call `rand.Intn(n)` with `0 < n` returns a value in
`[0, n)`. -/
def validDraws (inp : Input) : Prop :=
  ∀ n : Int, 0 < n → (0 ≤ inp.randX n ∧ inp.randX n < n) ∧ (0 ≤ inp.randY n ∧ inp.randY n < n)

/-- The states the game can be in when the generator of every frame meets the assumption
`validDraws`. -/
inductive ReachableDrawn : Game → Prop
  | start : ReachableDrawn newGame
  | step {g g1 : Game} (inp : Input) :
      ReachableDrawn g → validDraws inp → Update g inp = some g1 → ReachableDrawn g1

/-- The double-ended-queue model of one move, in the words of the design note: push the new head
on the front and pop the tail, unless an apple was eaten, in which case the pop is skipped. -/
def dequeStep (old : List Position) (h : Position) (ate : Bool) : List Position :=
  if ate then h :: old else (h :: old).dropLast

/-- What every reachable state satisfies about the score: it is not negative, the body has
`score + 3` segments and the score does not exceed the best score. -/
def ScoreInv (g : Game) : Prop :=
  0 ≤ g.score ∧ (g.body.length : Int) = g.score + 3 ∧ g.score ≤ g.bestScore

/-! ## The loops in closed form -/

theorem resetBodyLoop_eq (n i : Nat) (b : List Position) (h : i + n = b.length) :
    resetBodyLoop n i b = b.take i ++ List.replicate n startPos := by
  induction n generalizing i b with
  | zero =>
    have hi : b.length ≤ i := by omega
    simp [resetBodyLoop, List.take_of_length_le hi]
  | succ n ih =>
    have hi : i < b.length := by omega
    rw [resetBodyLoop, ih (i + 1) _ (by simp; omega)]
    apply List.ext_getElem?
    intro k
    simp only [List.getElem?_append, List.getElem?_take, List.getElem?_set, List.length_take,
      List.length_set, List.getElem?_replicate]
    rcases Nat.lt_trichotomy k i with hk | hk | hk
    · simp [hk, Nat.lt_succ_of_lt hk, Nat.ne_of_gt hk, Nat.lt_of_lt_of_le hk (Nat.le_of_lt hi)]
    · subst hk
      simp [hi, Nat.min_eq_left (Nat.le_of_lt hi), Nat.min_eq_left hi]
    · have h1 : ¬ k < i := by omega
      have h2 : ¬ k < i + 1 := by omega
      simp [h1, h2, Nat.min_eq_left (Nat.le_of_lt hi), Nat.min_eq_left hi]
      by_cases h3 : k - (i + 1) < n
      · have h4 : k - i < n + 1 := by omega
        simp [h3, h4]
      · have h4 : ¬ k - i < n + 1 := by omega
        simp [h3, h4]

theorem shiftLoop_eq (i : Nat) (b : List Position) (h : i < b.length) :
    shiftLoop i b = some (b.take 1 ++ b.take i ++ b.drop (i + 1)) := by
  induction i generalizing b with
  | zero =>
    cases b with
    | nil => simp at h
    | cons a t => simp [shiftLoop]
  | succ i ih =>
    have hi : i < b.length := by omega
    rw [shiftLoop, List.getElem?_eq_getElem hi]
    simp only [h, if_true]
    rw [ih _ (by simp; omega)]
    congr 1
    apply List.ext_getElem?
    intro k
    simp only [List.getElem?_append, List.getElem?_take, List.getElem?_set, List.length_take,
      List.length_set, List.getElem?_drop, List.length_append]
    have e1 : min 1 b.length = 1 := by omega
    have e2 : min i b.length = i := by omega
    have e3 : min (i + 1) b.length = i + 1 := by omega
    simp only [e1, e2, e3]
    rcases Nat.lt_trichotomy k (i + 1) with hk | hk | hk
    · have c1 : k < 1 + i := by omega
      have c2 : k < 1 + (i + 1) := by omega
      have c3 : i + 1 ≠ k := by omega
      have c4 : i + 1 ≠ k - 1 := by omega
      have c5 : k - 1 < i + 1 := by omega
      simp only [c1, c2, c3, c4, c5, if_true, if_false]
      by_cases c6 : k < 1
      · simp [c6]
      · have c7 : k - 1 < i := by omega
        simp [c6, c7]
    · subst hk
      have c1 : ¬ i + 1 < 1 + i := by omega
      have c2 : i + 1 < 1 + (i + 1) := by omega
      have c3 : i + 1 = i + 1 + (i + 1 - (1 + i)) := by omega
      have c4 : ¬ i + 1 < 1 := by omega
      simp [c1, c2, c4, h, hi, ← c3]
    · have c1 : ¬ k < 1 + i := by omega
      have c2 : ¬ k < 1 + (i + 1) := by omega
      have c3 : i + 1 ≠ i + 1 + (k - (1 + i)) := by omega
      have c4 : i + 1 + (k - (1 + i)) = k := by omega
      have c5 : i + 1 + 1 + (k - (1 + (i + 1))) = k := by omega
      have c6 : i + 1 ≠ k := by omega
      simp only [c1, c2, c4, c5, c6, if_false]

theorem shiftBody_cons (h : Position) (t : List Position) :
    shiftBody (h :: t) = some (h :: (h :: t).dropLast) := by
  rw [shiftBody, shiftLoop_eq _ _ (by simp)]
  simp [List.dropLast_eq_take]

theorem shiftBody_nil : shiftBody [] = some [] := rfl

theorem hitLoop_cons (i : Nat) (h : Position) (t : List Position) (hi : i ≤ t.length) :
    hitLoop i (h :: t) = some (decide (h ∈ t.take i)) := by
  induction i with
  | zero => simp [hitLoop]
  | succ i ih =>
    have hlt : i < t.length := by omega
    have key : h ∈ List.take (i + 1) t ↔ h ∈ List.take i t ∨ h = t[i] := by
      rw [List.take_succ, List.getElem?_eq_getElem hlt]
      simp only [Option.toList, List.mem_append, List.mem_singleton]
    rw [hitLoop]
    simp only [List.getElem?_cons_succ, List.getElem?_cons_zero, List.getElem?_eq_getElem hlt]
    by_cases hp : t[i] = h
    · simp [hp, key]
    · have hp2 : ¬ (t[i].X = h.X ∧ t[i].Y = h.Y) := by
        intro hc
        apply hp
        cases hx : t[i]
        cases h
        simp_all
      rw [if_neg hp2, ih (by omega)]
      have hp3 : ¬ h = t[i] := fun e => hp e.symm
      simp [hp3, key]

theorem selfHit_cons (h : Position) (t : List Position) :
    selfHit (h :: t) = some (decide (h ∈ t)) := by
  rw [selfHit, hitLoop_cons _ _ _ (by simp)]
  simp

theorem selfHit_nil : selfHit [] = some false := rfl

/-! ## The steps of `Update` in closed form -/

theorem numColumns_eq : numColumns = 32 := by decide

theorem numRows_eq : numRows = 24 := by decide

theorem startPos_eq : startPos = { X := 16, Y := 12 } := by decide

theorem pos_eq_iff (p q : Position) : (p.X = q.X ∧ p.Y = q.Y) ↔ p = q := by
  cases p
  cases q
  simp

theorem reset_eq (g : Game) (h : 3 ≤ g.body.length) :
    reset g = some { g with
      apple := { X := 3, Y := 3 }
      speed := 15
      score := 0
      body := [{ X := 16, Y := 12 }, { X := 16, Y := 12 }, { X := 16, Y := 12 }]
      moveDirection := dirNone } := by
  have hl : (List.take 3 g.body).length = 3 := by simp; omega
  simp only [reset, h, if_true, resetBody]
  rw [resetBodyLoop_eq _ 0 _ (by simp), hl, startPos_eq]
  rfl

theorem reset_none (g : Game) (h : ¬ 3 ≤ g.body.length) : reset g = none := by
  simp [reset, h]

theorem moveHead_cons (dir : Int) (h : Position) (t : List Position) :
    moveHead dir (h :: t) = some (stepHead dir h :: t) := by
  unfold moveHead stepHead
  split_ifs <;> rfl

theorem wrapHead_cons (h : Position) (t : List Position) :
    wrapHead (h :: t) = some (wrapPos h :: t) := rfl

theorem isMoveTick_iff (g : Game) (inp : Input) :
    isMoveTick g inp ↔
      g.speed ≠ 0 ∧ Int.tdiv 60 g.speed ≠ 0 ∧ Int.tmod g.timer (Int.tdiv 60 g.speed) = 0 ∧
        handleKeys inp g.moveDirection ≠ dirNone := by
  unfold isMoveTick moveDue
  by_cases h1 : g.speed = 0
  · simp [h1]
  · by_cases h2 : Int.tdiv 60 g.speed = 0
    · simp [h1, h2]
    · simp [h1, h2]

theorem advance_cons (g : Game) (inp : Input) (h : Position) (t : List Position)
    (hb : g.body = h :: t) :
    advance g inp =
      some (stepHead (handleKeys inp g.moveDirection) h :: (h :: t).dropLast) := by
  simp [advance, hb, shiftBody_cons, moveHead_cons]

theorem headOnBody_cons (h : Position) (t : List Position) : HeadOnBody (h :: t) ↔ h ∈ t := by
  constructor
  · rintro ⟨i, p, q, hi, hp, hq, hxy⟩
    obtain ⟨j, rfl⟩ : ∃ j, i = j + 1 := ⟨i - 1, by omega⟩
    simp only [List.getElem?_cons_succ, List.getElem?_cons_zero, Option.some.injEq] at hp hq
    have hpq : p = q := (pos_eq_iff p q).1 hxy
    subst hq
    subst hpq
    exact List.getElem?_mem hp
  · intro hm
    obtain ⟨j, hj⟩ := List.mem_iff_getElem?.1 hm
    exact ⟨j + 1, h, h, by omega, by simpa using hj, by simp, rfl, rfl⟩

theorem bitesItself_cons (g : Game) (inp : Input) (h : Position) (t : List Position)
    (hb : g.body = h :: t) :
    bitesItself g inp ↔ stepHead (handleKeys inp g.moveDirection) h ∈ (h :: t).dropLast := by
  unfold bitesItself
  rw [advance_cons g inp h t hb]
  constructor
  · rintro ⟨b, hb2, hh⟩
    simp only [Option.some.injEq] at hb2
    subst hb2
    exact (headOnBody_cons _ _).1 hh
  · intro hm
    exact ⟨_, rfl, (headOnBody_cons _ _).2 hm⟩

theorem wrapped_cons (g : Game) (inp : Input) (h : Position) (t : List Position)
    (hb : g.body = h :: t) :
    wrapped g inp =
      some (wrapPos (stepHead (handleKeys inp g.moveDirection) h) :: (h :: t).dropLast) := by
  simp [wrapped, advance_cons g inp h t hb, wrapHead_cons]

theorem newHead_cons (g : Game) (inp : Input) (h : Position) (t : List Position)
    (hb : g.body = h :: t) :
    newHead g inp = some (wrapPos (stepHead (handleKeys inp g.moveDirection) h)) := by
  simp [newHead, wrapped_cons g inp h t hb]

theorem Update_idle (g : Game) (inp : Input)
    (h : moveDue { g with moveDirection := handleKeys inp g.moveDirection } = some false) :
    Update g inp =
      some { g with moveDirection := handleKeys inp g.moveDirection, timer := g.timer + 1 } := by
  simp [Update, h]

theorem Update_move (g : Game) (inp : Input) (h : Position) (t : List Position)
    (hb : g.body = h :: t) (htick : isMoveTick g inp) :
    Update g inp =
      if stepHead (handleKeys inp g.moveDirection) h ∈ (h :: t).dropLast then
        reset { g with
          moveDirection := handleKeys inp g.moveDirection
          body := stepHead (handleKeys inp g.moveDirection) h :: (h :: t).dropLast }
      else
        (eatApple { g with
          moveDirection := handleKeys inp g.moveDirection
          body := wrapPos (stepHead (handleKeys inp g.moveDirection) h) :: (h :: t).dropLast }
          inp).map fun g1 => { g1 with timer := g1.timer + 1 } := by
  unfold isMoveTick at htick
  obtain ⟨body, apple, timer, speed, score, best, dir⟩ := g
  simp only at hb
  subst hb
  simp only [Update, htick, Option.some_bind, if_true, moveSnake, shiftBody_cons,
    moveHead_cons, selfHit_cons, wrapHead_cons]
  by_cases hm : stepHead (handleKeys inp dir) h ∈ (h :: t).dropLast
  · simp only [hm, decide_True, if_true, Option.map_map]
    cases reset _ <;> simp
  · simp only [hm, decide_False, if_false, Option.some_bind, Option.map_map]
    cases eatApple _ inp <;> simp

theorem eatApple_cons (g : Game) (inp : Input) (h : Position) (t : List Position)
    (hb : g.body = h :: t) :
    eatApple g inp =
      some (if h = g.apple then
        { g with
          apple := { X := inp.randX (numColumns - 1), Y := inp.randY (numRows - 1) }
          body := (h :: t) ++ [h]
          score := g.score + 1
          bestScore := if g.score + 1 > g.bestScore then g.score + 1 else g.bestScore }
      else g) := by
  unfold eatApple
  rw [hb]
  simp only [pos_eq_iff]
  split_ifs <;> rfl

theorem Update_move_on (g : Game) (inp : Input) (h : Position) (t : List Position)
    (hb : g.body = h :: t) (htick : isMoveTick g inp)
    (hno : stepHead (handleKeys inp g.moveDirection) h ∉ (h :: t).dropLast) :
    Update g inp =
      some (if wrapPos (stepHead (handleKeys inp g.moveDirection) h) = g.apple then
        { g with
          moveDirection := handleKeys inp g.moveDirection
          apple := { X := inp.randX (numColumns - 1), Y := inp.randY (numRows - 1) }
          body := (wrapPos (stepHead (handleKeys inp g.moveDirection) h) :: (h :: t).dropLast) ++
            [wrapPos (stepHead (handleKeys inp g.moveDirection) h)]
          score := g.score + 1
          bestScore := if g.score + 1 > g.bestScore then g.score + 1 else g.bestScore
          timer := g.timer + 1 }
      else
        { g with
          moveDirection := handleKeys inp g.moveDirection
          body := wrapPos (stepHead (handleKeys inp g.moveDirection) h) :: (h :: t).dropLast
          timer := g.timer + 1 }) := by
  rw [Update_move g inp h t hb htick, if_neg hno, eatApple_cons _ inp _ _ rfl]
  simp only [Option.map_some']
  split_ifs <;> rfl

theorem Update_move_bite (g : Game) (inp : Input) (h : Position) (t : List Position)
    (hb : g.body = h :: t) (htick : isMoveTick g inp) (hlen : 3 ≤ g.body.length)
    (hbite : stepHead (handleKeys inp g.moveDirection) h ∈ (h :: t).dropLast) :
    Update g inp =
      some { g with
        apple := { X := 3, Y := 3 }
        speed := 15
        score := 0
        body := [{ X := 16, Y := 12 }, { X := 16, Y := 12 }, { X := 16, Y := 12 }]
        moveDirection := dirNone } := by
  rw [Update_move g inp h t hb htick, if_pos hbite, reset_eq]
  · rw [hb] at hlen
    simp at hlen ⊢
    omega

theorem wrapPos_stepHead (dir x y : Int) (hin : inGrid ⟨x, y⟩) :
    wrapPos (stepHead dir ⟨x, y⟩) =
      ⟨(x + (delta dir).1) % numColumns, (y + (delta dir).2) % numRows⟩ := by
  have hx0 : 0 ≤ x := hin.1
  have hx1 : x < 32 := by
    have h := hin.2.1
    rwa [numColumns_eq] at h
  have hy0 : 0 ≤ y := hin.2.2.1
  have hy1 : y < 24 := by
    have h := hin.2.2.2
    rwa [numRows_eq] at h
  rw [numColumns_eq, numRows_eq]
  unfold stepHead delta
  split_ifs <;> simp only [wrapPos, numColumns_eq, numRows_eq] <;> split_ifs <;>
    dsimp only at * <;> simp only [Position.mk.injEq] <;> omega

theorem inGrid_wrapPos_stepHead (dir : Int) (h : Position) (hin : inGrid h) :
    inGrid (wrapPos (stepHead dir h)) := by
  obtain ⟨x, y⟩ := h
  rw [wrapPos_stepHead dir x y hin]
  unfold inGrid
  simp only [numColumns_eq, numRows_eq]
  omega

theorem moveDue_of_speed (g : Game) (hlo : 1 ≤ g.speed) (hhi : g.speed ≤ 60) :
    moveDue g =
      some (decide (Int.tmod g.timer (Int.tdiv 60 g.speed) = 0) &&
        decide (g.moveDirection ≠ dirNone)) := by
  have h1 : g.speed ≠ 0 := by omega
  have h2 : Int.tdiv 60 g.speed ≠ 0 := by
    rw [Int.tdiv_eq_ediv (by decide) (by omega)]
    have h3 : (1 : Int) ≤ 60 / g.speed := Int.le_ediv_of_mul_le (by omega) (by omega)
    omega
  simp [moveDue, h1, h2]

theorem Update_move_nil (g : Game) (inp : Input) (hb : g.body = [])
    (htick : isMoveTick g inp) : Update g inp = none := by
  unfold isMoveTick at htick
  obtain ⟨body, apple, timer, speed, score, best, dir⟩ := g
  simp only at hb
  subst hb
  simp only [Update, htick, Option.some_bind, if_true, moveSnake, shiftBody_nil]
  unfold moveHead
  split_ifs <;> simp [selfHit_nil, wrapHead]

/-- The three ways in which a call of `Update` returns: a frame without movement, a move that
ends in a self-collision and resets the game, and a move that is carried out. -/
theorem Update_cases (g g1 : Game) (inp : Input) (hu : Update g inp = some g1) :
    (¬ isMoveTick g inp ∧
      g1 = { g with moveDirection := handleKeys inp g.moveDirection, timer := g.timer + 1 }) ∨
    (∃ h t, g.body = h :: t ∧ isMoveTick g inp ∧
      stepHead (handleKeys inp g.moveDirection) h ∈ (h :: t).dropLast ∧ 3 ≤ g.body.length ∧
      g1 = { g with
        apple := { X := 3, Y := 3 }
        speed := 15
        score := 0
        body := [{ X := 16, Y := 12 }, { X := 16, Y := 12 }, { X := 16, Y := 12 }]
        moveDirection := dirNone }) ∨
    (∃ h t, g.body = h :: t ∧ isMoveTick g inp ∧
      stepHead (handleKeys inp g.moveDirection) h ∉ (h :: t).dropLast ∧
      g1 = if wrapPos (stepHead (handleKeys inp g.moveDirection) h) = g.apple then
        { g with
          moveDirection := handleKeys inp g.moveDirection
          apple := { X := inp.randX (numColumns - 1), Y := inp.randY (numRows - 1) }
          body := (wrapPos (stepHead (handleKeys inp g.moveDirection) h) :: (h :: t).dropLast) ++
            [wrapPos (stepHead (handleKeys inp g.moveDirection) h)]
          score := g.score + 1
          bestScore := if g.score + 1 > g.bestScore then g.score + 1 else g.bestScore
          timer := g.timer + 1 }
      else
        { g with
          moveDirection := handleKeys inp g.moveDirection
          body := wrapPos (stepHead (handleKeys inp g.moveDirection) h) :: (h :: t).dropLast
          timer := g.timer + 1 }) := by
  by_cases htick : isMoveTick g inp
  · right
    cases hb : g.body with
    | nil =>
      rw [Update_move_nil g inp hb htick] at hu
      exact absurd hu (by simp)
    | cons h t =>
      by_cases hm : stepHead (handleKeys inp g.moveDirection) h ∈ (h :: t).dropLast
      · left
        have hlen : 3 ≤ g.body.length := by
          by_contra hlt
          rw [Update_move g inp h t hb htick, if_pos hm, reset_none] at hu
          · exact absurd hu (by simp)
          · rw [hb] at hlt
            simpa using hlt
        rw [Update_move_bite g inp h t hb htick hlen hm, Option.some.injEq] at hu
        exact ⟨h, t, rfl, htick, hm, by rw [← hb]; exact hlen, hu.symm⟩
      · right
        rw [Update_move_on g inp h t hb htick hm, Option.some.injEq] at hu
        exact ⟨h, t, rfl, htick, hm, hu.symm⟩
  · left
    refine ⟨htick, ?_⟩
    cases hd : moveDue { g with moveDirection := handleKeys inp g.moveDirection } with
    | none =>
      simp [Update, hd] at hu
    | some due =>
      cases due with
      | true => exact absurd hd htick
      | false =>
        rw [Update_idle g inp hd, Option.some.injEq] at hu
        exact hu.symm

/-! ## What holds in every reachable state -/

theorem newGame_eq :
    newGame =
      { body := [{ X := 16, Y := 12 }, { X := 16, Y := 12 }, { X := 16, Y := 12 }]
        apple := { X := 3, Y := 3 }
        timer := 0
        speed := 15
        score := 0
        bestScore := 0
        moveDirection := dirNone } := by
  decide

theorem Inv_newGame : Inv newGame := by
  rw [newGame_eq]
  refine ⟨rfl, by simp, ?_⟩
  intro p hp
  simp only [List.mem_cons, List.mem_singleton, List.not_mem_nil, or_false, or_self] at hp
  rw [hp]
  decide

theorem Inv_step (g g1 : Game) (inp : Input) (hinv : Inv g) (hu : Update g inp = some g1) :
    Inv g1 := by
  obtain ⟨hs, hl, hg⟩ := hinv
  rcases Update_cases g g1 inp hu with ⟨-, rfl⟩ | ⟨h, t, -, -, -, -, rfl⟩ | ⟨h, t, hb, -, -, rfl⟩
  · exact ⟨hs, hl, hg⟩
  · refine ⟨rfl, by simp, ?_⟩
    intro p hp
    simp only [List.mem_cons, List.mem_singleton, List.not_mem_nil, or_false, or_self] at hp
    rw [hp]
    decide
  · have hh : inGrid (wrapPos (stepHead (handleKeys inp g.moveDirection) h)) :=
      inGrid_wrapPos_stepHead _ h (hg h (by rw [hb]; exact List.mem_cons_self _ _))
    have ht : ∀ p ∈ (h :: t).dropLast, inGrid p := by
      intro p hp
      exact hg p (by rw [hb]; exact List.dropLast_subset _ hp)
    have hlen : (h :: t).dropLast.length + 1 = g.body.length := by
      rw [hb]
      simp
    by_cases happle : wrapPos (stepHead (handleKeys inp g.moveDirection) h) = g.apple
    · rw [if_pos happle]
      refine ⟨hs, ?_, ?_⟩
      · simp only [List.length_append, List.length_cons, List.length_nil]
        omega
      · intro p hp
        simp only [List.mem_append, List.mem_cons, List.mem_singleton, List.not_mem_nil,
          or_false] at hp
        rcases hp with (rfl | hp3) | rfl
        · exact hh
        · exact ht p hp3
        · exact hh
    · rw [if_neg happle]
      refine ⟨hs, ?_, ?_⟩
      · simp only [List.length_cons]
        omega
      · intro p hp
        simp only [List.mem_cons] at hp
        rcases hp with rfl | hp3
        · exact hh
        · exact ht p hp3

theorem Inv_of_reachable (g : Game) (hr : Reachable g) : Inv g := by
  induction hr with
  | start => exact Inv_newGame
  | step inp _ hu ih => exact Inv_step _ _ inp ih hu

theorem Update_defined (g : Game) (inp : Input) (hs : g.speed = 15) (hl : 3 ≤ g.body.length) :
    ∃ g1, Update g inp = some g1 := by
  cases hd : moveDue { g with moveDirection := handleKeys inp g.moveDirection } with
  | none =>
    rw [moveDue_of_speed { g with moveDirection := handleKeys inp g.moveDirection }
      (by show 1 ≤ g.speed; omega) (by show g.speed ≤ 60; omega)] at hd
    exact absurd hd (by simp)
  | some due =>
    cases due with
    | false => exact ⟨_, Update_idle g inp hd⟩
    | true =>
      cases hb : g.body with
      | nil => simp [hb] at hl
      | cons h t =>
        by_cases hm : stepHead (handleKeys inp g.moveDirection) h ∈ (h :: t).dropLast
        · exact ⟨_, Update_move_bite g inp h t hb hd hl hm⟩
        · exact ⟨_, Update_move_on g inp h t hb hd hm⟩

theorem moveSnake_defined (g : Game) (inp : Input) (hl : 3 ≤ g.body.length) :
    ∃ r, moveSnake g inp = some r := by
  obtain ⟨body, apple, timer, speed, score, best, dir⟩ := g
  cases body with
  | nil => simp at hl
  | cons h t =>
    simp only [moveSnake, shiftBody_cons, moveHead_cons, selfHit_cons, wrapHead_cons,
      Option.some_bind]
    by_cases hm : stepHead dir h ∈ (h :: t).dropLast
    · simp only [hm, decide_True, if_true]
      rw [reset_eq _ (by simp at hl ⊢; omega)]
      exact ⟨_, rfl⟩
    · simp only [hm, decide_False, if_false]
      rw [eatApple_cons _ inp _ _ rfl]
      exact ⟨_, rfl⟩

theorem reachable_of_run (inps : List Input) (g g1 : Game) (hr : Reachable g)
    (hrun : run g inps = some g1) : Reachable g1 := by
  induction inps generalizing g with
  | nil =>
    simp only [run, Option.some.injEq] at hrun
    rw [← hrun]
    exact hr
  | cons inp rest ih =>
    simp only [run] at hrun
    cases hu : Update g inp with
    | none => simp [hu] at hrun
    | some g2 =>
      rw [hu, Option.some_bind] at hrun
      exact ih g2 (Reachable.step inp hr hu) hrun

theorem run_biteFrames :
    run newGame biteFrames =
      some
        { body := [⟨14, 12⟩, ⟨15, 12⟩, ⟨16, 12⟩], apple := ⟨3, 3⟩, timer := 8, speed := 15,
          score := 0, bestScore := 0, moveDirection := dirRight } := by
  decide

theorem timer_after_Update (g g1 : Game) (inp : Input) (hu : Update g inp = some g1) :
    (isMoveTick g inp ∧ bitesItself g inp → g1.timer = g.timer) ∧
      (¬ (isMoveTick g inp ∧ bitesItself g inp) → g1.timer = g.timer + 1) := by
  rcases Update_cases g g1 inp hu with ⟨hn, rfl⟩ | ⟨h, t, hb, ht, hm, -, rfl⟩ |
    ⟨h, t, hb, ht, hm, rfl⟩
  · exact ⟨fun hc => absurd hc.1 hn, fun _ => rfl⟩
  · exact ⟨fun _ => rfl, fun hc => absurd ⟨ht, (bitesItself_cons g inp h t hb).2 hm⟩ hc⟩
  · refine ⟨fun hc => absurd ((bitesItself_cons g inp h t hb).1 hc.2) hm, fun _ => ?_⟩
    split_ifs <;> rfl

/-! ## Input handling -/

/-- C1 (an input on which the claim fails): with the direction Left and an edge of `A` alone,
which requests Left, the direction after input handling is Left, the current direction, although
Left is not the exact opposite of Left; so "the direction after is `c` if and only if `d` is the
exact opposite of `c`" is false at `c = d = Left`. -/
theorem same_direction_request_keeps_direction :
    dirLeft ∈ [dirNone, dirLeft, dirRight, dirUp, dirDown] ∧
      dirLeft ∈ [dirLeft, dirRight, dirUp, dirDown] ∧
      handleKeys (pressOnly dirLeft 0 0) dirLeft = dirLeft ∧
      ¬ isOpposite dirLeft dirLeft ∧
      ¬ (handleKeys (pressOnly dirLeft 0 0) dirLeft = dirLeft ↔ isOpposite dirLeft dirLeft) := by
  decide

/-- C1 (amended): with exactly one directional key edge, requesting `d` while the direction is
`c`, the direction after input handling is `c` if and only if `d` is the exact opposite of `c`
or `d` is `c` itself.  The key `switch` fires no case (the request is rejected) exactly when `d`
is the exact opposite of `c`; the direction is then `c`, and it is `d` in every other case.
Requesting Right while moving Left leaves the direction Left. -/
theorem direction_after_single_key_edge (c d rx ry : Int)
    (hc : c ∈ [dirNone, dirLeft, dirRight, dirUp, dirDown])
    (hd : d ∈ [dirLeft, dirRight, dirUp, dirDown]) :
    (handleKeys (pressOnly d rx ry) c = c ↔ (isOpposite c d ∨ d = c)) ∧
      (keyCase (pressOnly d rx ry) c = none ↔ isOpposite c d) ∧
      (isOpposite c d → handleKeys (pressOnly d rx ry) c = c) ∧
      (¬ isOpposite c d → handleKeys (pressOnly d rx ry) c = d) ∧
      handleKeys (pressOnly dirRight rx ry) dirLeft = dirLeft := by
  simp only [List.mem_cons, List.mem_singleton, List.not_mem_nil, or_false] at hc hd
  rcases hc with rfl | rfl | rfl | rfl | rfl <;> rcases hd with rfl | rfl | rfl | rfl <;>
    simp [keyCase, handleKeys, pressOnly, isOpposite, dirNone, dirLeft, dirRight, dirUp, dirDown]

theorem direction_after_single_key_edge_witness :
    (handleKeys (pressOnly dirRight 0 0) dirLeft = dirLeft ↔
        (isOpposite dirLeft dirRight ∨ dirRight = dirLeft)) ∧
      (keyCase (pressOnly dirRight 0 0) dirLeft = none ↔ isOpposite dirLeft dirRight) ∧
      (isOpposite dirLeft dirRight → handleKeys (pressOnly dirRight 0 0) dirLeft = dirLeft) ∧
      (¬ isOpposite dirLeft dirRight → handleKeys (pressOnly dirRight 0 0) dirLeft = dirRight) ∧
      handleKeys (pressOnly dirRight 0 0) dirLeft = dirLeft :=
  direction_after_single_key_edge dirLeft dirRight 0 0 (by decide) (by decide)

/-! ## The movement gate -/

/-- C2: with `1 ≤ speed ≤ 60`, a frame on which the direction after input handling is `dirNone`
or `timer % (60 / speed)` is not `0` returns normally and changes nothing but the direction
(set by the key `switch`) and the timer, which grows by one: body, apple, score, bestScore and
speed are as before.  Hence a frame that changes any of these five has both gate conditions
true. -/
theorem gate_closed_frame (g : Game) (inp : Input) (hlo : 1 ≤ g.speed) (hhi : g.speed ≤ 60) :
    ((handleKeys inp g.moveDirection = dirNone ∨
        Int.tmod g.timer (Int.tdiv 60 g.speed) ≠ 0) →
      Update g inp =
        some { g with moveDirection := handleKeys inp g.moveDirection, timer := g.timer + 1 }) ∧
    (∀ g1, Update g inp = some g1 →
      (g1.body ≠ g.body ∨ g1.apple ≠ g.apple ∨ g1.score ≠ g.score ∨
        g1.bestScore ≠ g.bestScore ∨ g1.speed ≠ g.speed) →
      Int.tmod g.timer (Int.tdiv 60 g.speed) = 0 ∧ handleKeys inp g.moveDirection ≠ dirNone) := by
  have key : (handleKeys inp g.moveDirection = dirNone ∨
        Int.tmod g.timer (Int.tdiv 60 g.speed) ≠ 0) →
      Update g inp =
        some { g with moveDirection := handleKeys inp g.moveDirection, timer := g.timer + 1 } := by
    intro hgate
    apply Update_idle
    rw [moveDue_of_speed { g with moveDirection := handleKeys inp g.moveDirection } hlo hhi]
    rcases hgate with hd | ht
    · simp [hd]
    · simp [ht]
  refine ⟨key, ?_⟩
  intro g1 hg1 hchange
  by_contra hnot
  have hgate : handleKeys inp g.moveDirection = dirNone ∨
      Int.tmod g.timer (Int.tdiv 60 g.speed) ≠ 0 := by
    by_cases ht : Int.tmod g.timer (Int.tdiv 60 g.speed) = 0
    · left
      by_contra hd
      exact hnot ⟨ht, hd⟩
    · exact Or.inr ht
  rw [key hgate] at hg1
  simp only [Option.some.injEq] at hg1
  subst hg1
  simp at hchange

theorem gate_closed_frame_witness :
    Update { newGame with timer := 5, moveDirection := dirLeft } (pressOnly dirUp 0 0) =
      some { newGame with timer := 6, moveDirection := dirUp } :=
  (gate_closed_frame { newGame with timer := 5, moveDirection := dirLeft } (pressOnly dirUp 0 0)
    (by decide) (by decide)).1 (Or.inr (by decide))

/-! ## Self-collision -/

/-- C3: for a state with at least three body segments, a move tick on which, after the body shift
and the head advance, some non-head segment lies on the head, returns normally with the body
exactly three cells at the grid centre `(numColumns/2, numRows/2) = (16, 12)`, direction
`dirNone`, score `0`, speed `15`, apple `(3, 3)` and bestScore unchanged, whatever the body,
score, apple and direction were. -/
theorem self_collision_full_reset (g : Game) (inp : Input) (hlen : 3 ≤ g.body.length)
    (htick : isMoveTick g inp) (hbite : bitesItself g inp) :
    ∃ g1, Update g inp = some g1 ∧
      g1.body.length = 3 ∧
      (∀ p ∈ g1.body, p = { X := Int.tdiv numColumns 2, Y := Int.tdiv numRows 2 }) ∧
      g1.body = [{ X := 16, Y := 12 }, { X := 16, Y := 12 }, { X := 16, Y := 12 }] ∧
      g1.moveDirection = dirNone ∧ g1.score = 0 ∧ g1.speed = 15 ∧
      g1.apple = { X := 3, Y := 3 } ∧ g1.bestScore = g.bestScore := by
  obtain ⟨h, t, hb⟩ : ∃ h t, g.body = h :: t := by
    cases hg : g.body with
    | nil => simp [hg] at hlen
    | cons h t => exact ⟨h, t, rfl⟩
  have hm := (bitesItself_cons g inp h t hb).1 hbite
  refine ⟨_, Update_move_bite g inp h t hb htick hlen hm, rfl, ?_, rfl, rfl, rfl, rfl, rfl, rfl⟩
  intro p hp
  simp only [List.mem_cons, List.mem_singleton, List.not_mem_nil, or_false, or_self] at hp
  rw [hp]
  decide

theorem self_collision_full_reset_witness :
    isMoveTick
        { body := [⟨5, 5⟩, ⟨6, 5⟩, ⟨6, 6⟩, ⟨5, 6⟩, ⟨4, 6⟩], apple := ⟨9, 9⟩, timer := 4, speed := 15,
          score := 2, bestScore := 7, moveDirection := dirDown } (noKeys 0 0) ∧
      ∃ g1,
        Update
            { body := [⟨5, 5⟩, ⟨6, 5⟩, ⟨6, 6⟩, ⟨5, 6⟩, ⟨4, 6⟩], apple := ⟨9, 9⟩, timer := 4,
              speed := 15, score := 2, bestScore := 7, moveDirection := dirDown } (noKeys 0 0) =
          some g1 ∧
        g1.body.length = 3 ∧
        (∀ p ∈ g1.body, p = { X := Int.tdiv numColumns 2, Y := Int.tdiv numRows 2 }) ∧
        g1.body = [{ X := 16, Y := 12 }, { X := 16, Y := 12 }, { X := 16, Y := 12 }] ∧
        g1.moveDirection = dirNone ∧ g1.score = 0 ∧ g1.speed = 15 ∧
        g1.apple = { X := 3, Y := 3 } ∧ g1.bestScore = 7 :=
  ⟨by decide,
    self_collision_full_reset _ _ (by decide) (by decide)
      ((bitesItself_cons _ _ _ _ rfl).2 (by decide))⟩

/-! ## Apple consumption and body length -/

/-- C4: on a move tick without self-collision, `Update` returns normally; with `b` the body after
shift, head advance and wrap and `h` its head, the new head is `h`, and
* if `h` is the apple's cell, the score grows by one, bestScore becomes
  `max bestScore (score + 1)`, the body is `b` with one more segment at the end, a copy of `h`,
  and the apple is the pair of draws `rand.Intn(numColumns - 1)`, `rand.Intn(numRows - 1)`;
* otherwise the body is `b` and apple, score and bestScore are unchanged.
The scenario: body `[(10,10),(10,10),(10,10)]`, direction Right, apple `(11,10)`, score `0`
gives head `(11,10)`, score `1` and body length `4`. -/
theorem apple_consumption :
    (∀ (g : Game) (inp : Input), g.body ≠ [] → isMoveTick g inp → ¬ bitesItself g inp →
      ∃ g1 b h, Update g inp = some g1 ∧ wrapped g inp = some b ∧ b.head? = some h ∧
        b.length = g.body.length ∧ g1.body.head? = some h ∧
        ((h.X = g.apple.X ∧ h.Y = g.apple.Y) →
          g1.score = g.score + 1 ∧ g1.bestScore = max g.bestScore (g.score + 1) ∧
          g1.body = b ++ [h] ∧ g1.body.length = g.body.length + 1 ∧
          g1.apple = { X := inp.randX (numColumns - 1), Y := inp.randY (numRows - 1) }) ∧
        (¬ (h.X = g.apple.X ∧ h.Y = g.apple.Y) →
          g1.body = b ∧ g1.apple = g.apple ∧ g1.score = g.score ∧
          g1.bestScore = g.bestScore)) ∧
    (∀ (inp : Input) (g : Game), g.body = [⟨10, 10⟩, ⟨10, 10⟩, ⟨10, 10⟩] →
      handleKeys inp g.moveDirection = dirRight → g.apple = ⟨11, 10⟩ → g.score = 0 →
      isMoveTick g inp →
      ∃ g1, Update g inp = some g1 ∧ g1.body.head? = some ⟨11, 10⟩ ∧ g1.score = 1 ∧
        g1.body.length = 4) := by
  have general : ∀ (g : Game) (inp : Input), g.body ≠ [] → isMoveTick g inp →
      ¬ bitesItself g inp →
      ∃ g1 b h, Update g inp = some g1 ∧ wrapped g inp = some b ∧ b.head? = some h ∧
        b.length = g.body.length ∧ g1.body.head? = some h ∧
        ((h.X = g.apple.X ∧ h.Y = g.apple.Y) →
          g1.score = g.score + 1 ∧ g1.bestScore = max g.bestScore (g.score + 1) ∧
          g1.body = b ++ [h] ∧ g1.body.length = g.body.length + 1 ∧
          g1.apple = { X := inp.randX (numColumns - 1), Y := inp.randY (numRows - 1) }) ∧
        (¬ (h.X = g.apple.X ∧ h.Y = g.apple.Y) →
          g1.body = b ∧ g1.apple = g.apple ∧ g1.score = g.score ∧
          g1.bestScore = g.bestScore) := by
    intro g inp hne htick hno
    obtain ⟨h, t, hb⟩ : ∃ h t, g.body = h :: t := by
      cases hg : g.body with
      | nil => exact absurd hg hne
      | cons h t => exact ⟨h, t, rfl⟩
    have hm := (not_congr (bitesItself_cons g inp h t hb)).1 hno
    have hlen : (wrapPos (stepHead (handleKeys inp g.moveDirection) h) ::
        (h :: t).dropLast).length = g.body.length := by
      rw [hb]
      simp
    refine ⟨_, _, _, Update_move_on g inp h t hb htick hm, wrapped_cons g inp h t hb, rfl,
      hlen, ?_, ?_, ?_⟩
    · split_ifs <;> rfl
    · intro happle
      rw [if_pos ((pos_eq_iff _ _).1 happle)]
      refine ⟨rfl, ?_, rfl, ?_, rfl⟩
      · show (if g.score + 1 > g.bestScore then g.score + 1 else g.bestScore) = _
        split_ifs with hgt
        · exact (max_eq_right (le_of_lt hgt)).symm
        · exact (max_eq_left (not_lt.1 hgt)).symm
      · show ((wrapPos (stepHead (handleKeys inp g.moveDirection) h) ::
          (h :: t).dropLast) ++ [_]).length = _
        rw [List.length_append, hlen]
        rfl
    · intro happle
      rw [if_neg (fun e => happle ((pos_eq_iff _ _).2 e))]
      exact ⟨rfl, rfl, rfl, rfl⟩
  refine ⟨general, ?_⟩
  intro inp g hb hdir happle hscore htick
  have hno : ¬ bitesItself g inp := by
    rw [bitesItself_cons g inp _ _ hb, hdir]
    decide
  obtain ⟨g1, b, h, hu, hw, hh, hl, hh1, hyes, -⟩ := general g inp (by simp [hb]) htick hno
  rw [wrapped_cons g inp _ _ hb, hdir] at hw
  simp only [Option.some.injEq] at hw
  subst hw
  have hh2 : h = ⟨11, 10⟩ := by
    have : some (wrapPos (stepHead dirRight ⟨10, 10⟩)) = some h := hh
    rw [← Option.some.inj this]
    decide
  subst hh2
  obtain ⟨hs, -, -, hl1, -⟩ := hyes (by rw [happle]; exact ⟨rfl, rfl⟩)
  refine ⟨g1, hu, hh1, ?_, ?_⟩
  · rw [hs, hscore]
    rfl
  · rw [hl1, hb]
    rfl

theorem apple_consumption_witness :
    ∃ g1,
      Update
          { body := [⟨10, 10⟩, ⟨10, 10⟩, ⟨10, 10⟩], apple := ⟨11, 10⟩, timer := 0, speed := 15,
            score := 0, bestScore := 0, moveDirection := dirRight } (noKeys 7 9) =
        some g1 ∧
      g1.body.head? = some ⟨11, 10⟩ ∧ g1.score = 1 ∧ g1.body.length = 4 :=
  apple_consumption.2 (noKeys 7 9) _ rfl (by decide) rfl rfl (by decide)

/-- C5: for a state with a non-empty body, a move tick without self-collision returns normally
and leaves the body length as it was, unless the new head is on the apple's cell, in which case
the length is exactly one more. -/
theorem body_length_after_move (g : Game) (inp : Input) (hne : g.body ≠ [])
    (htick : isMoveTick g inp) (hno : ¬ bitesItself g inp) :
    ∃ g1, Update g inp = some g1 ∧
      (newHead g inp = some g.apple → g1.body.length = g.body.length + 1) ∧
      (newHead g inp ≠ some g.apple → g1.body.length = g.body.length) := by
  obtain ⟨h, t, hb⟩ : ∃ h t, g.body = h :: t := by
    cases hg : g.body with
    | nil => exact absurd hg hne
    | cons h t => exact ⟨h, t, rfl⟩
  have hm := (not_congr (bitesItself_cons g inp h t hb)).1 hno
  refine ⟨_, Update_move_on g inp h t hb htick hm, ?_, ?_⟩
  · intro happle
    rw [newHead_cons g inp h t hb, Option.some.injEq] at happle
    rw [if_pos happle, hb]
    simp
  · intro happle
    rw [newHead_cons g inp h t hb] at happle
    rw [if_neg (fun e => happle (congrArg some e)), hb]
    simp

theorem body_length_after_move_witness :
    ∃ g1,
      Update
          { body := [⟨14, 12⟩, ⟨15, 12⟩, ⟨16, 12⟩], apple := ⟨3, 3⟩, timer := 8, speed := 15,
            score := 0, bestScore := 0, moveDirection := dirLeft } (noKeys 0 0) =
        some g1 ∧
      (newHead
          { body := [⟨14, 12⟩, ⟨15, 12⟩, ⟨16, 12⟩], apple := ⟨3, 3⟩, timer := 8, speed := 15,
            score := 0, bestScore := 0, moveDirection := dirLeft } (noKeys 0 0) =
          some ⟨3, 3⟩ →
        g1.body.length = 3 + 1) ∧
      (newHead
          { body := [⟨14, 12⟩, ⟨15, 12⟩, ⟨16, 12⟩], apple := ⟨3, 3⟩, timer := 8, speed := 15,
            score := 0, bestScore := 0, moveDirection := dirLeft } (noKeys 0 0) ≠
          some ⟨3, 3⟩ →
        g1.body.length = 3) :=
  body_length_after_move _ _ (by decide) (by decide)
    (fun hb => absurd ((bitesItself_cons _ _ _ _ rfl).1 hb) (by decide))

/-! ## Head advance and wrap -/

/-- C7: for a state whose head `(x, y)` lies on the grid, a move tick without self-collision
returns normally with the new head at `((x + dx) mod numColumns, (y + dy) mod numRows)`, the
remainder being the non-negative one and `(dx, dy)` the unit step of the direction after input
handling.  A head at `(numColumns - 1, y)` moving Right ends at `(0, y)`, and a head at `(0, y)`
moving Left ends at `(numColumns - 1, y)`. -/
theorem head_advance_wraps (g : Game) (inp : Input) (x y : Int) (t : List Position)
    (hb : g.body = ⟨x, y⟩ :: t) (hin : inGrid ⟨x, y⟩) (htick : isMoveTick g inp)
    (hno : ¬ bitesItself g inp) :
    ∃ g1, Update g inp = some g1 ∧
      g1.body.head? =
        some ⟨(x + (delta (handleKeys inp g.moveDirection)).1) % numColumns,
          (y + (delta (handleKeys inp g.moveDirection)).2) % numRows⟩ ∧
      (handleKeys inp g.moveDirection = dirRight → x = numColumns - 1 →
        g1.body.head? = some ⟨0, y⟩) ∧
      (handleKeys inp g.moveDirection = dirLeft → x = 0 →
        g1.body.head? = some ⟨numColumns - 1, y⟩) := by
  have hm := (not_congr (bitesItself_cons g inp _ t hb)).1 hno
  have hhead : ∀ g1, Update g inp = some g1 →
      g1.body.head? =
        some ⟨(x + (delta (handleKeys inp g.moveDirection)).1) % numColumns,
          (y + (delta (handleKeys inp g.moveDirection)).2) % numRows⟩ := by
    intro g1 hg1
    rw [Update_move_on g inp _ t hb htick hm, Option.some.injEq] at hg1
    rw [← hg1, ← wrapPos_stepHead _ x y hin]
    split_ifs <;> rfl
  refine ⟨_, Update_move_on g inp _ t hb htick hm, hhead _ (Update_move_on g inp _ t hb htick hm),
    ?_, ?_⟩
  · intro hd hx
    rw [hhead _ (Update_move_on g inp _ t hb htick hm), hd, hx]
    obtain ⟨-, -, hy0, hy1⟩ := hin
    simp only [numColumns_eq, numRows_eq] at *
    simp only [delta, dirLeft, dirRight, dirUp, dirDown]
    simp only [Option.some.injEq, Position.mk.injEq]
    constructor
    · decide
    · norm_num
      omega
  · intro hd hx
    rw [hhead _ (Update_move_on g inp _ t hb htick hm), hd, hx]
    obtain ⟨-, -, hy0, hy1⟩ := hin
    simp only [numColumns_eq, numRows_eq] at *
    simp only [delta, dirLeft, dirRight, dirUp, dirDown]
    simp only [Option.some.injEq, Position.mk.injEq]
    constructor
    · decide
    · norm_num
      omega

theorem head_advance_wraps_witness :
    ∃ g1,
      Update
          { body := [⟨31, 5⟩, ⟨30, 5⟩, ⟨29, 5⟩], apple := ⟨3, 3⟩, timer := 0, speed := 15,
            score := 0, bestScore := 0, moveDirection := dirRight } (noKeys 0 0) =
        some g1 ∧
      g1.body.head? = some ⟨0, 5⟩ := by
  obtain ⟨g1, hu, -, hright, -⟩ :=
    head_advance_wraps
      { body := [⟨31, 5⟩, ⟨30, 5⟩, ⟨29, 5⟩], apple := ⟨3, 3⟩, timer := 0, speed := 15,
        score := 0, bestScore := 0, moveDirection := dirRight } (noKeys 0 0) 31 5 _ rfl
      (by decide) (by decide)
      (fun hb => absurd ((bitesItself_cons _ _ _ _ rfl).1 hb) (by decide))
  exact ⟨g1, hu, hright (by decide) (by decide)⟩

/-! ## The best score -/

/-- C10: `Update` never lowers bestScore, on a frame that resets the game included; `reset`
leaves it as it is; so it never decreases along a sequence of `Update` calls. -/
theorem bestScore_monotone :
    (∀ (g g1 : Game) (inp : Input), Update g inp = some g1 → g.bestScore ≤ g1.bestScore) ∧
    (∀ g g1 : Game, reset g = some g1 → g1.bestScore = g.bestScore) ∧
    (∀ (inps : List Input) (g g1 : Game), run g inps = some g1 →
      g.bestScore ≤ g1.bestScore) := by
  have hstep : ∀ (g g1 : Game) (inp : Input), Update g inp = some g1 →
      g.bestScore ≤ g1.bestScore := by
    intro g g1 inp hu
    rcases Update_cases g g1 inp hu with ⟨-, rfl⟩ | ⟨h, t, -, -, -, -, rfl⟩ | ⟨h, t, -, -, -, rfl⟩
    · exact le_refl _
    · exact le_refl _
    · split_ifs with h1 h2
      · exact le_of_lt h2
      · exact le_refl _
      · exact le_refl _
  refine ⟨hstep, ?_, ?_⟩
  · intro g g1 hr
    by_cases hlen : 3 ≤ g.body.length
    · rw [reset_eq g hlen, Option.some.injEq] at hr
      rw [← hr]
    · rw [reset_none g hlen] at hr
      exact absurd hr (by simp)
  · intro inps
    induction inps with
    | nil =>
      intro g g1 hr
      simp only [run, Option.some.injEq] at hr
      rw [hr]
    | cons inp rest ih =>
      intro g g1 hr
      simp only [run] at hr
      cases hu : Update g inp with
      | none => simp [hu] at hr
      | some g2 =>
        rw [hu, Option.some_bind] at hr
        exact le_trans (hstep g g2 inp hu) (ih g2 g1 hr)

theorem bestScore_monotone_witness :
    Update
        { body := [⟨5, 5⟩, ⟨6, 5⟩, ⟨6, 6⟩, ⟨5, 6⟩, ⟨4, 6⟩], apple := ⟨9, 9⟩, timer := 4, speed := 15,
          score := 2, bestScore := 7, moveDirection := dirDown } (noKeys 0 0) =
      some
        { body := [⟨16, 12⟩, ⟨16, 12⟩, ⟨16, 12⟩], apple := ⟨3, 3⟩, timer := 4, speed := 15,
          score := 0, bestScore := 7, moveDirection := dirNone } ∧
    (7 : Int) ≤
      (Game.mk [⟨16, 12⟩, ⟨16, 12⟩, ⟨16, 12⟩] ⟨3, 3⟩ 4 15 0 7 dirNone).bestScore :=
  ⟨by decide,
    bestScore_monotone.1
      { body := [⟨5, 5⟩, ⟨6, 5⟩, ⟨6, 6⟩, ⟨5, 6⟩, ⟨4, 6⟩], apple := ⟨9, 9⟩, timer := 4, speed := 15,
        score := 2, bestScore := 7, moveDirection := dirDown }
      { body := [⟨16, 12⟩, ⟨16, 12⟩, ⟨16, 12⟩], apple := ⟨3, 3⟩, timer := 4, speed := 15,
        score := 0, bestScore := 7, moveDirection := dirNone }
      (noKeys 0 0) (by decide)⟩

/-! ## Reachable states -/

/-- C6: in every state reachable from `newGame` by `Update` calls, with any key edges and any
random draws, every body cell, the head included, has `0 ≤ X < numColumns = 32` and
`0 ≤ Y < numRows = 24`. -/
theorem wrap_invariant (g : Game) (hr : Reachable g) :
    (∀ p ∈ g.body, 0 ≤ p.X ∧ p.X < numColumns ∧ 0 ≤ p.Y ∧ p.Y < numRows) ∧
      (∃ h, g.body.head? = some h ∧ 0 ≤ h.X ∧ h.X < numColumns ∧ 0 ≤ h.Y ∧ h.Y < numRows) ∧
      numColumns = 32 ∧ numRows = 24 := by
  obtain ⟨-, hl, hg⟩ := Inv_of_reachable g hr
  refine ⟨hg, ?_, numColumns_eq, numRows_eq⟩
  cases hb : g.body with
  | nil => simp [hb] at hl
  | cons h t => exact ⟨h, rfl, hg h (by rw [hb]; exact List.mem_cons_self _ _)⟩

theorem wrap_invariant_witness :
    (∀ p ∈ [(⟨14, 12⟩ : Position), ⟨15, 12⟩, ⟨16, 12⟩],
        0 ≤ p.X ∧ p.X < numColumns ∧ 0 ≤ p.Y ∧ p.Y < numRows) ∧
      (∃ h, [(⟨14, 12⟩ : Position), ⟨15, 12⟩, ⟨16, 12⟩].head? = some h ∧
        0 ≤ h.X ∧ h.X < numColumns ∧ 0 ≤ h.Y ∧ h.Y < numRows) ∧
      numColumns = 32 ∧ numRows = 24 :=
  wrap_invariant
    { body := [⟨14, 12⟩, ⟨15, 12⟩, ⟨16, 12⟩], apple := ⟨3, 3⟩, timer := 8, speed := 15,
      score := 0, bestScore := 0, moveDirection := dirRight }
    (reachable_of_run biteFrames newGame _ Reachable.start run_biteFrames)

/-- C9: in every state reachable from `newGame` the next `Update` call returns normally, for
every input: the speed is `15`, so the divisor `60 / speed` is `4` and not zero; the body has at
least three segments, so every index used is in range and so is the truncation `body[:3]` of
`reset`. -/
theorem update_cannot_fail (g : Game) (hr : Reachable g) (inp : Input) :
    g.speed = 15 ∧ Int.tdiv 60 g.speed = 4 ∧ 3 ≤ g.body.length ∧
      (∃ b, moveDue { g with moveDirection := handleKeys inp g.moveDirection } = some b) ∧
      (∃ r, moveSnake { g with moveDirection := handleKeys inp g.moveDirection } inp = some r) ∧
      (∃ g1, reset g = some g1) ∧
      ∃ g1, Update g inp = some g1 := by
  obtain ⟨hs, hl, -⟩ := Inv_of_reachable g hr
  refine ⟨hs, by rw [hs]; decide, hl, ?_, ?_, ⟨_, reset_eq g hl⟩, Update_defined g inp hs hl⟩
  · exact ⟨_, moveDue_of_speed { g with moveDirection := handleKeys inp g.moveDirection }
      (by show 1 ≤ g.speed; omega) (by show g.speed ≤ 60; omega)⟩
  · exact moveSnake_defined _ inp hl

theorem update_cannot_fail_witness :
    ∃ g1,
      Update
          { body := [⟨14, 12⟩, ⟨15, 12⟩, ⟨16, 12⟩], apple := ⟨3, 3⟩, timer := 8, speed := 15,
            score := 0, bestScore := 0, moveDirection := dirRight } (pressOnly dirDown 0 0) =
        some g1 :=
  (update_cannot_fail
    { body := [⟨14, 12⟩, ⟨15, 12⟩, ⟨16, 12⟩], apple := ⟨3, 3⟩, timer := 8, speed := 15,
      score := 0, bestScore := 0, moveDirection := dirRight }
    (reachable_of_run biteFrames newGame _ Reachable.start run_biteFrames)
    (pressOnly dirDown 0 0)).2.2.2.2.2.2

/-! ## The frame counter -/

/-- C8 (the frame on which the claim fails): the eight frames `biteFrames` lead from `newGame`
to a state with timer `8`, and the next `Update` call, a move that ends in a self-collision,
returns with the game reset and the timer still `8`. -/
theorem timer_kept_on_reset_frame :
    run newGame biteFrames =
        some
          { body := [⟨14, 12⟩, ⟨15, 12⟩, ⟨16, 12⟩], apple := ⟨3, 3⟩, timer := 8, speed := 15,
            score := 0, bestScore := 0, moveDirection := dirRight } ∧
      Update
          { body := [⟨14, 12⟩, ⟨15, 12⟩, ⟨16, 12⟩], apple := ⟨3, 3⟩, timer := 8, speed := 15,
            score := 0, bestScore := 0, moveDirection := dirRight } (noKeys 0 0) =
        some
          { body := [⟨16, 12⟩, ⟨16, 12⟩, ⟨16, 12⟩], apple := ⟨3, 3⟩, timer := 8, speed := 15,
            score := 0, bestScore := 0, moveDirection := dirNone } :=
  ⟨run_biteFrames, by decide⟩

/-! ## Consecutive moves -/

theorem handleKeys_not_opposite (inp : Input) (c : Int) :
    ¬ isOpposite c (handleKeys inp c) := by
  unfold handleKeys keyCase isOpposite
  simp only [dirLeft, dirRight, dirUp, dirDown]
  split_ifs with h1 h2 h3 h4 <;> simp only [Option.getD_some, Option.getD_none]
  · have := h1.2
    omega
  · have := h2.2
    omega
  · have := h3.2
    omega
  · have := h4.2
    omega
  · omega

theorem handleKeys_of_no_edge (inp : Input) (c : Int) (h : hasKeyEdge inp = false) :
    handleKeys inp c = c := by
  unfold hasKeyEdge at h
  simp only [Bool.or_eq_false_iff] at h
  obtain ⟨⟨⟨hs, hw⟩, hd⟩, ha⟩ := h
  simp [handleKeys, keyCase, hs, hw, hd, ha]

theorem coast_direction (mids : List Input) (g g2 : Game) (h : coast g mids = some g2) :
    g2.moveDirection = mids.foldl (fun d i => handleKeys i d) g.moveDirection := by
  induction mids generalizing g with
  | nil =>
    simp only [coast, Option.some.injEq] at h
    rw [← h]
    rfl
  | cons inp rest ih =>
    rw [coast] at h
    by_cases ht : isMoveTick g inp
    · rw [if_pos ht] at h
      exact absurd h (by simp)
    · rw [if_neg ht] at h
      cases hu : Update g inp with
      | none => simp [hu] at h
      | some g1 =>
        rw [hu, Option.some_bind] at h
        rcases Update_cases g g1 inp hu with ⟨-, rfl⟩ | ⟨_, _, -, hm, -⟩ | ⟨_, _, -, hm, -⟩
        · rw [ih _ h]
          rfl
        · exact absurd hm ht
        · exact absurd hm ht

theorem fold_handleKeys_of_no_edge (l : List Input) (d : Int) (h : keyFrames l = 0) :
    l.foldl (fun d i => handleKeys i d) d = d := by
  induction l generalizing d with
  | nil => rfl
  | cons inp rest ih =>
    unfold keyFrames at h
    rw [List.filter_cons] at h
    by_cases hk : hasKeyEdge inp = true
    · simp [hk] at h
    · simp only [hk] at h
      rw [List.foldl_cons, handleKeys_of_no_edge inp d (by simpa using hk)]
      exact ih d h

theorem fold_handleKeys_not_opposite (l : List Input) (d : Int) (h : keyFrames l ≤ 1) :
    ¬ isOpposite d (l.foldl (fun d i => handleKeys i d) d) := by
  induction l generalizing d with
  | nil =>
    have := handleKeys_not_opposite (noKeys 0 0) d
    rwa [handleKeys_of_no_edge (noKeys 0 0) d rfl] at this
  | cons inp rest ih =>
    rw [List.foldl_cons]
    by_cases hk : hasKeyEdge inp = true
    · have hrest : keyFrames rest = 0 := by
        unfold keyFrames at h ⊢
        rw [List.filter_cons, if_pos hk, List.length_cons] at h
        omega
      rw [fold_handleKeys_of_no_edge rest _ hrest]
      exact handleKeys_not_opposite inp d
    · have hrest : keyFrames rest ≤ 1 := by
        unfold keyFrames at h ⊢
        rw [List.filter_cons, if_neg hk] at h
        exact h
      rw [handleKeys_of_no_edge inp d (by simpa using hk)]
      exact ih d hrest

theorem moveDirection_after_move (g g1 : Game) (inp : Input) (hu : Update g inp = some g1)
    (hno : ¬ bitesItself g inp) (htick : isMoveTick g inp) :
    g1.moveDirection = handleKeys inp g.moveDirection := by
  rcases Update_cases g g1 inp hu with ⟨hn, -⟩ | ⟨h, t, hb, -, hm, -, -⟩ | ⟨h, t, hb, -, -, rfl⟩
  · exact absurd htick hn
  · exact absurd ((bitesItself_cons g inp h t hb).2 hm) hno
  · split_ifs <;> rfl

theorem run_leftFrames :
    run newGame leftFrames =
      some
        { body := [⟨0, 12⟩, ⟨1, 12⟩, ⟨2, 12⟩], apple := ⟨3, 3⟩, timer := 64, speed := 15,
          score := 0, bestScore := 0, moveDirection := dirLeft } := by
  decide

/-- C11 (a run on which the claim fails): from `newGame`, with at most one key edge on every
frame, the snake moves Left sixteen times, the seventeenth Left move takes the head from
`(0, 12)` through the wall to `(31, 12)` without a reset, then `W` and `D` have an edge on two of
the three frames before the next move, and that next move goes Right, from `(31, 12)` back to
`(0, 12)`, again without a reset: a Left move immediately followed by a Right move. -/
theorem reversal_after_two_key_edges :
    run newGame leftFrames =
        some
          { body := [⟨0, 12⟩, ⟨1, 12⟩, ⟨2, 12⟩], apple := ⟨3, 3⟩, timer := 64, speed := 15,
            score := 0, bestScore := 0, moveDirection := dirLeft } ∧
      isMoveTick
          { body := [⟨0, 12⟩, ⟨1, 12⟩, ⟨2, 12⟩], apple := ⟨3, 3⟩, timer := 64, speed := 15,
            score := 0, bestScore := 0, moveDirection := dirLeft } (noKeys 0 0) ∧
      ¬ bitesItself
          { body := [⟨0, 12⟩, ⟨1, 12⟩, ⟨2, 12⟩], apple := ⟨3, 3⟩, timer := 64, speed := 15,
            score := 0, bestScore := 0, moveDirection := dirLeft } (noKeys 0 0) ∧
      handleKeys (noKeys 0 0) dirLeft = dirLeft ∧
      Update
          { body := [⟨0, 12⟩, ⟨1, 12⟩, ⟨2, 12⟩], apple := ⟨3, 3⟩, timer := 64, speed := 15,
            score := 0, bestScore := 0, moveDirection := dirLeft } (noKeys 0 0) =
        some
          { body := [⟨31, 12⟩, ⟨0, 12⟩, ⟨1, 12⟩], apple := ⟨3, 3⟩, timer := 65, speed := 15,
            score := 0, bestScore := 0, moveDirection := dirLeft } ∧
      coast
          { body := [⟨31, 12⟩, ⟨0, 12⟩, ⟨1, 12⟩], apple := ⟨3, 3⟩, timer := 65, speed := 15,
            score := 0, bestScore := 0, moveDirection := dirLeft }
          [pressOnly dirUp 0 0, pressOnly dirRight 0 0, noKeys 0 0] =
        some
          { body := [⟨31, 12⟩, ⟨0, 12⟩, ⟨1, 12⟩], apple := ⟨3, 3⟩, timer := 68, speed := 15,
            score := 0, bestScore := 0, moveDirection := dirRight } ∧
      isMoveTick
          { body := [⟨31, 12⟩, ⟨0, 12⟩, ⟨1, 12⟩], apple := ⟨3, 3⟩, timer := 68, speed := 15,
            score := 0, bestScore := 0, moveDirection := dirRight } (noKeys 0 0) ∧
      ¬ bitesItself
          { body := [⟨31, 12⟩, ⟨0, 12⟩, ⟨1, 12⟩], apple := ⟨3, 3⟩, timer := 68, speed := 15,
            score := 0, bestScore := 0, moveDirection := dirRight } (noKeys 0 0) ∧
      handleKeys (noKeys 0 0) dirRight = dirRight ∧
      Update
          { body := [⟨31, 12⟩, ⟨0, 12⟩, ⟨1, 12⟩], apple := ⟨3, 3⟩, timer := 68, speed := 15,
            score := 0, bestScore := 0, moveDirection := dirRight } (noKeys 0 0) =
        some
          { body := [⟨0, 12⟩, ⟨31, 12⟩, ⟨0, 12⟩], apple := ⟨3, 3⟩, timer := 69, speed := 15,
            score := 0, bestScore := 0, moveDirection := dirRight } ∧
      isOpposite dirLeft dirRight ∧
      (∀ inp ∈ leftFrames ++
          [noKeys 0 0, pressOnly dirUp 0 0, pressOnly dirRight 0 0, noKeys 0 0, noKeys 0 0],
        keyCount inp ≤ 1) :=
  ⟨run_leftFrames, by decide,
    fun hb => absurd ((bitesItself_cons _ _ _ _ rfl).1 hb) (by decide), by decide, by decide,
    by decide, by decide,
    fun hb => absurd ((bitesItself_cons _ _ _ _ rfl).1 hb) (by decide), by decide, by decide,
    by decide, by decide⟩

/-- C11 (amended): two consecutive head movements with no reset between them, with a key edge on
at most one of the frames after the first movement up to and including the frame of the second,
are never in directly opposite directions.  The first movement is the move tick `inp` in state
`g`, which does not end in a self-collision; the frames `mids` are not move ticks; the second
movement is the move tick `last`. -/
theorem no_reversal_within_one_key_edge (g g1 g2 : Game) (inp last : Input)
    (mids : List Input) (hmove1 : isMoveTick g inp) (hno : ¬ bitesItself g inp)
    (hu : Update g inp = some g1) (hcoast : coast g1 mids = some g2)
    (_hmove2 : isMoveTick g2 last) (hkeys : keyFrames (mids ++ [last]) ≤ 1) :
    ¬ isOpposite (handleKeys inp g.moveDirection) (handleKeys last g2.moveDirection) := by
  have h1 : g1.moveDirection = handleKeys inp g.moveDirection :=
    moveDirection_after_move g g1 inp hu hno hmove1
  have h2 := coast_direction mids g1 g2 hcoast
  have h3 : handleKeys last g2.moveDirection =
      (mids ++ [last]).foldl (fun d i => handleKeys i d) g1.moveDirection := by
    rw [List.foldl_append, ← h2]
    rfl
  rw [h3, ← h1]
  exact fold_handleKeys_not_opposite _ _ hkeys

theorem no_reversal_within_one_key_edge_witness :
    ¬ isOpposite (handleKeys (noKeys 0 0) dirLeft) (handleKeys (noKeys 0 0) dirUp) :=
  no_reversal_within_one_key_edge
    { body := [⟨15, 12⟩, ⟨16, 12⟩, ⟨16, 12⟩], apple := ⟨3, 3⟩, timer := 4, speed := 15,
      score := 0, bestScore := 0, moveDirection := dirLeft }
    { body := [⟨14, 12⟩, ⟨15, 12⟩, ⟨16, 12⟩], apple := ⟨3, 3⟩, timer := 5, speed := 15,
      score := 0, bestScore := 0, moveDirection := dirLeft }
    { body := [⟨14, 12⟩, ⟨15, 12⟩, ⟨16, 12⟩], apple := ⟨3, 3⟩, timer := 8, speed := 15,
      score := 0, bestScore := 0, moveDirection := dirUp }
    (noKeys 0 0) (noKeys 0 0) [pressOnly dirUp 0 0, noKeys 0 0, noKeys 0 0]
    (by decide) (fun hb => absurd ((bitesItself_cons _ _ _ _ rfl).1 hb) (by decide))
    (by decide) (by decide) (by decide) (by decide)

/-! ## The head and the rest of the body -/

theorem run_wrapFrames :
    run newGame wrapFrames =
      some
        { body := [⟨31, 12⟩, ⟨0, 12⟩, ⟨1, 12⟩], apple := ⟨3, 3⟩, timer := 68, speed := 15,
          score := 0, bestScore := 0, moveDirection := dirRight } := by
  decide

theorem wrapPos_of_inGrid (p : Position) (hin : inGrid p) : wrapPos p = p := by
  obtain ⟨x, y⟩ := p
  have h := wrapPos_stepHead dirNone x y hin
  have hs : stepHead dirNone ⟨x, y⟩ = ⟨x, y⟩ := by
    simp [stepHead, dirNone, dirLeft, dirRight, dirUp, dirDown]
  have hd : delta dirNone = (0, 0) := by decide
  obtain ⟨hx0, hx1, hy0, hy1⟩ := hin
  rw [hs, hd] at h
  rw [h]
  simp only [add_zero, Position.mk.injEq]
  exact ⟨Int.emod_eq_of_lt hx0 hx1, Int.emod_eq_of_lt hy0 hy1⟩

theorem head_off_body_without_wrap (g g1 : Game) (inp : Input) (h : Position)
    (t : List Position) (hb : g.body = h :: t) (htick : isMoveTick g inp)
    (hno : ¬ bitesItself g inp) (hu : Update g inp = some g1)
    (hin : inGrid (stepHead (handleKeys inp g.moveDirection) h))
    (hnoapple : newHead g inp ≠ some g.apple) : ¬ HeadOnBody g1.body := by
  have hm := (not_congr (bitesItself_cons g inp h t hb)).1 hno
  rw [newHead_cons g inp h t hb] at hnoapple
  rw [Update_move_on g inp h t hb htick hm, Option.some.injEq,
    if_neg (fun e => hnoapple (congrArg some e)), wrapPos_of_inGrid _ hin] at hu
  rw [← hu]
  exact fun hh => hm ((headOnBody_cons _ _).1 hh)

/-- C12 (the frame on which the claim fails): the state reached from `newGame` by `wrapFrames`
has its three body cells on the grid, head `(31, 12)` and a segment on `(0, 12)`.  The next
`Update` call is a move to the Right that neither resets nor eats the apple, and it leaves the
head on `(0, 12)`, the cell of the last segment. -/
theorem head_wraps_onto_body :
    run newGame wrapFrames =
        some
          { body := [⟨31, 12⟩, ⟨0, 12⟩, ⟨1, 12⟩], apple := ⟨3, 3⟩, timer := 68, speed := 15,
            score := 0, bestScore := 0, moveDirection := dirRight } ∧
      (∀ p ∈ [(⟨31, 12⟩ : Position), ⟨0, 12⟩, ⟨1, 12⟩], inGrid p) ∧
      isMoveTick
          { body := [⟨31, 12⟩, ⟨0, 12⟩, ⟨1, 12⟩], apple := ⟨3, 3⟩, timer := 68, speed := 15,
            score := 0, bestScore := 0, moveDirection := dirRight } (noKeys 0 0) ∧
      ¬ bitesItself
          { body := [⟨31, 12⟩, ⟨0, 12⟩, ⟨1, 12⟩], apple := ⟨3, 3⟩, timer := 68, speed := 15,
            score := 0, bestScore := 0, moveDirection := dirRight } (noKeys 0 0) ∧
      Update
          { body := [⟨31, 12⟩, ⟨0, 12⟩, ⟨1, 12⟩], apple := ⟨3, 3⟩, timer := 68, speed := 15,
            score := 0, bestScore := 0, moveDirection := dirRight } (noKeys 0 0) =
        some
          { body := [⟨0, 12⟩, ⟨31, 12⟩, ⟨0, 12⟩], apple := ⟨3, 3⟩, timer := 69, speed := 15,
            score := 0, bestScore := 0, moveDirection := dirRight } ∧
      HeadOnBody [⟨0, 12⟩, ⟨31, 12⟩, ⟨0, 12⟩] :=
  ⟨run_wrapFrames, by decide, by decide,
    fun hb => absurd ((bitesItself_cons _ _ _ _ rfl).1 hb) (by decide), by decide,
    (headOnBody_cons _ _).2 (by decide)⟩

/-! ## Key priority -/

/-- C13: for every current direction and every combination of key edges, the key `switch` takes
the case that is first, in the order Down, Up, Right, Left, among those whose key is pressed and
whose direction is not the exact opposite of the current direction, and the direction after
input handling is the direction of that case; if no case matches, it is unchanged.  So one frame
applies at most one direction change. -/
theorem key_priority (inp : Input) (c : Int) :
    keyCase inp c = firstAccepted inp c ∧
      handleKeys inp c = (firstAccepted inp c).getD c := by
  have hk : keyCase inp c = firstAccepted inp c := by
    obtain ⟨s, w, d, a, rx, ry⟩ := inp
    unfold keyCase firstAccepted keyOrder isOpposite
    simp only [dirLeft, dirRight, dirUp, dirDown]
    cases s <;> cases w <;> cases d <;> cases a <;> simp [List.find?]
    all_goals
      by_cases h1 : c = 1 <;> by_cases h2 : c = 2 <;> by_cases h3 : c = 3 <;>
        by_cases h4 : c = 4 <;> simp_all
  refine ⟨hk, ?_⟩
  rw [handleKeys, hk]

/-! ## The apple -/

theorem run_eatFrames : run newGame eatFrames = some afterEating := by
  decide

theorem reachableDrawn_of_run (inps : List Input) (g g1 : Game) (hr : ReachableDrawn g)
    (hv : ∀ inp ∈ inps, validDraws inp) (hrun : run g inps = some g1) :
    ReachableDrawn g1 := by
  induction inps generalizing g with
  | nil =>
    simp only [run, Option.some.injEq] at hrun
    rw [← hrun]
    exact hr
  | cons inp rest ih =>
    simp only [run] at hrun
    cases hu : Update g inp with
    | none => simp [hu] at hrun
    | some g2 =>
      rw [hu, Option.some_bind] at hrun
      exact ih g2 (ReachableDrawn.step inp hr (hv inp (List.mem_cons_self _ _)) hu)
        (fun i hi => hv i (List.mem_cons_of_mem _ hi)) hrun

theorem apple_after_Update (g g1 : Game) (inp : Input) (hu : Update g inp = some g1) :
    g1.apple = g.apple ∨ g1.apple = ⟨3, 3⟩ ∨
      g1.apple = ⟨inp.randX (numColumns - 1), inp.randY (numRows - 1)⟩ := by
  rcases Update_cases g g1 inp hu with ⟨-, rfl⟩ | ⟨h, t, -, -, -, -, rfl⟩ | ⟨h, t, -, -, -, rfl⟩
  · exact Or.inl rfl
  · exact Or.inr (Or.inl rfl)
  · split_ifs
    · exact Or.inr (Or.inr rfl)
    · exact Or.inr (Or.inr rfl)
    · exact Or.inl rfl

theorem validDraws_noKeys (rx ry : Int) : validDraws (noKeys rx ry) := by
  intro n hn
  exact ⟨⟨Int.emod_nonneg rx (ne_of_gt hn), Int.emod_lt_of_pos rx hn⟩,
    ⟨Int.emod_nonneg ry (ne_of_gt hn), Int.emod_lt_of_pos ry hn⟩⟩

theorem validDraws_pressOnly (d rx ry : Int) : validDraws (pressOnly d rx ry) := by
  intro n hn
  exact ⟨⟨Int.emod_nonneg rx (ne_of_gt hn), Int.emod_lt_of_pos rx hn⟩,
    ⟨Int.emod_nonneg ry (ne_of_gt hn), Int.emod_lt_of_pos ry hn⟩⟩

theorem validDraws_eatFrames : ∀ inp ∈ eatFrames, validDraws inp := by
  intro inp hmem
  simp only [eatFrames, List.cons_append, List.mem_cons, List.mem_append, List.mem_replicate,
    List.mem_singleton, List.not_mem_nil, or_false] at hmem
  rcases hmem with rfl | ((⟨-, rfl⟩ | rfl) | ⟨-, rfl⟩) | rfl
  · exact validDraws_pressOnly _ _ _
  · exact validDraws_noKeys _ _
  · exact validDraws_pressOnly _ _ _
  · exact validDraws_noKeys _ _
  · exact validDraws_noKeys _ _

/-- C14: when every call `rand.Intn(n)` returns a value in `[0, n)`, the apple of every state
reachable from `newGame` has `0 ≤ X ≤ numColumns - 2 = 30` and `0 ≤ Y ≤ numRows - 2 = 22`: it
never lies in the last column or the last row.  The bounds come from the arguments
`numColumns - 1` and `numRows - 1` that `eatApple` passes to `rand.Intn`. -/
theorem apple_never_in_last_column_or_row (g : Game) (hr : ReachableDrawn g) :
    (0 ≤ g.apple.X ∧ g.apple.X ≤ numColumns - 2 ∧ 0 ≤ g.apple.Y ∧ g.apple.Y ≤ numRows - 2) ∧
      numColumns - 2 = 30 ∧ numRows - 2 = 22 := by
  refine ⟨?_, by decide, by decide⟩
  rw [numColumns_eq, numRows_eq]
  induction hr with
  | start =>
    rw [newGame_eq]
    decide
  | step inp _ hv hu ih =>
    have hx := (hv (numColumns - 1) (by decide)).1
    have hy := (hv (numRows - 1) (by decide)).2
    have hx1 : inp.randX (numColumns - 1) < 31 := lt_of_lt_of_eq hx.2 (by decide)
    have hy1 : inp.randY (numRows - 1) < 23 := lt_of_lt_of_eq hy.2 (by decide)
    rcases apple_after_Update _ _ inp hu with ha | ha | ha
    · rw [ha]
      exact ih
    · rw [ha]
      decide
    · rw [ha]
      refine ⟨hx.1, ?_, hy.1, ?_⟩
      · show inp.randX (numColumns - 1) ≤ 32 - 2
        omega
      · show inp.randY (numRows - 1) ≤ 24 - 2
        omega

theorem apple_never_in_last_column_or_row_witness :
    (0 ≤ afterEating.apple.X ∧ afterEating.apple.X ≤ numColumns - 2 ∧
        0 ≤ afterEating.apple.Y ∧ afterEating.apple.Y ≤ numRows - 2) ∧
      numColumns - 2 = 30 ∧ numRows - 2 = 22 :=
  apple_never_in_last_column_or_row afterEating
    (reachableDrawn_of_run eatFrames newGame _ ReachableDrawn.start validDraws_eatFrames
      run_eatFrames)

/-! ## Body length and score -/

theorem reachable_eatFrames : Reachable afterEating :=
  reachable_of_run eatFrames newGame _ Reachable.start run_eatFrames

/-- C15: the body of every state reachable from `newGame` has at least three segments; it has
exactly three in `newGame`, in the state left by `reset`, and in the state left by an `Update`
call that resets the game. -/
theorem body_length_invariant :
    (∀ g : Game, Reachable g → 3 ≤ g.body.length) ∧
      newGame.body.length = 3 ∧
      (∀ g g1 : Game, reset g = some g1 → g1.body.length = 3) ∧
      (∀ (g g1 : Game) (inp : Input), isMoveTick g inp → bitesItself g inp →
        Update g inp = some g1 → g1.body.length = 3) := by
  refine ⟨fun g hr => (Inv_of_reachable g hr).2.1, by decide, ?_, ?_⟩
  · intro g g1 hr
    by_cases hlen : 3 ≤ g.body.length
    · rw [reset_eq g hlen, Option.some.injEq] at hr
      rw [← hr]
      rfl
    · rw [reset_none g hlen] at hr
      exact absurd hr (by simp)
  · intro g g1 inp htick hbite hu
    rcases Update_cases g g1 inp hu with ⟨hn, -⟩ | ⟨h, t, -, -, -, -, rfl⟩ | ⟨h, t, hb, -, hm, -⟩
    · exact absurd htick hn
    · rfl
    · exact absurd ((bitesItself_cons g inp h t hb).1 hbite) hm

theorem body_length_invariant_witness : 3 ≤ afterEating.body.length :=
  body_length_invariant.1 afterEating reachable_eatFrames

theorem ScoreInv_newGame : ScoreInv newGame := by
  rw [newGame_eq]
  exact ⟨le_refl _, rfl, le_refl _⟩

theorem ScoreInv_step (g g1 : Game) (inp : Input) (hinv : ScoreInv g)
    (hu : Update g inp = some g1) : ScoreInv g1 := by
  obtain ⟨h0, hl, hb⟩ := hinv
  rcases Update_cases g g1 inp hu with ⟨-, rfl⟩ | ⟨h, t, -, -, -, -, rfl⟩ | ⟨h, t, hbody, -, -, rfl⟩
  · exact ⟨h0, hl, hb⟩
  · refine ⟨le_refl _, ?_, ?_⟩
    · show ((3 : Nat) : Int) = 0 + 3
      rfl
    · show (0 : Int) ≤ g.bestScore
      omega
  · have hlen : ((h :: t).dropLast.length : Int) + 1 = g.score + 3 := by
      rw [← hl, hbody]
      simp
    by_cases happle : wrapPos (stepHead (handleKeys inp g.moveDirection) h) = g.apple
    · rw [if_pos happle]
      refine ⟨?_, ?_, ?_⟩
      · show 0 ≤ g.score + 1
        omega
      · show ((((_ :: (h :: t).dropLast) ++ [_] : List Position).length : Nat) : Int) =
          g.score + 1 + 3
        simp only [List.length_append, List.length_cons, List.length_nil]
        push_cast
        omega
      · show g.score + 1 ≤ if g.score + 1 > g.bestScore then g.score + 1 else g.bestScore
        split_ifs with hgt
        · exact le_refl _
        · exact not_lt.1 hgt
    · rw [if_neg happle]
      refine ⟨h0, ?_, hb⟩
      show (((_ :: (h :: t).dropLast : List Position).length : Nat) : Int) = g.score + 3
      simp only [List.length_cons]
      push_cast
      omega

theorem ScoreInv_of_reachable (g : Game) (hr : Reachable g) : ScoreInv g := by
  induction hr with
  | start => exact ScoreInv_newGame
  | step inp _ hu ih => exact ScoreInv_step _ _ inp ih hu

/-- C18: in every state reachable from `newGame` the score is not negative and the body has
`score + 3` segments. -/
theorem score_tracks_growth (g : Game) (hr : Reachable g) :
    0 ≤ g.score ∧ (g.body.length : Int) = g.score + 3 :=
  ⟨(ScoreInv_of_reachable g hr).1, (ScoreInv_of_reachable g hr).2.1⟩

theorem score_tracks_growth_witness :
    0 ≤ afterEating.score ∧ (afterEating.body.length : Int) = afterEating.score + 3 :=
  score_tracks_growth afterEating reachable_eatFrames

/-- C19: in every state reachable from `newGame` the score does not exceed the best score. -/
theorem score_le_bestScore (g : Game) (hr : Reachable g) : g.score ≤ g.bestScore :=
  (ScoreInv_of_reachable g hr).2.2

theorem score_le_bestScore_witness : afterEating.score ≤ afterEating.bestScore :=
  score_le_bestScore afterEating reachable_eatFrames

/-! ## The body as a shift register -/

theorem getElem?_cons_dropLast (w h : Position) (t : List Position) (i : Nat) (h1 : 1 ≤ i)
    (hi : i < (h :: t).length) : (w :: (h :: t).dropLast)[i]? = (h :: t)[i - 1]? := by
  obtain ⟨j, rfl⟩ : ∃ j, i = j + 1 := ⟨i - 1, by omega⟩
  have hj : j < (h :: t).length - 1 := by omega
  rw [List.getElem?_cons_succ, List.dropLast_eq_take, List.getElem?_take]
  simp only [hj, if_true, Nat.add_sub_cancel]

theorem length_cons_dropLast (w h : Position) (t : List Position) :
    (w :: (h :: t).dropLast).length = (h :: t).length := by
  simp

/-- C16: for a state with a non-empty body of length `n`, the shift loop returns a body of the
same length in which every index `i` with `1 ≤ i < n` holds the old `body[i-1]`, and so does the
body left by a move tick of `Update` that does not reset. -/
theorem body_shift (g : Game) (inp : Input) (hne : g.body ≠ []) (htick : isMoveTick g inp)
    (hno : ¬ bitesItself g inp) :
    (∃ b, shiftBody g.body = some b ∧ b.length = g.body.length ∧
      ∀ i, 1 ≤ i → i < g.body.length → b[i]? = g.body[i - 1]?) ∧
    ∃ g1, Update g inp = some g1 ∧
      ∀ i, 1 ≤ i → i < g.body.length → g1.body[i]? = g.body[i - 1]? := by
  obtain ⟨h, t, hb⟩ : ∃ h t, g.body = h :: t := by
    cases hg : g.body with
    | nil => exact absurd hg hne
    | cons h t => exact ⟨h, t, rfl⟩
  have hm := (not_congr (bitesItself_cons g inp h t hb)).1 hno
  constructor
  · refine ⟨h :: (h :: t).dropLast, ?_, ?_, ?_⟩
    · rw [hb, shiftBody_cons]
    · rw [hb, length_cons_dropLast]
    · intro i h1 hi
      rw [hb] at hi ⊢
      exact getElem?_cons_dropLast h h t i h1 hi
  · refine ⟨_, Update_move_on g inp h t hb htick hm, ?_⟩
    intro i h1 hi
    rw [hb] at hi ⊢
    by_cases happle : wrapPos (stepHead (handleKeys inp g.moveDirection) h) = g.apple
    · rw [if_pos happle]
      show ((_ :: (h :: t).dropLast) ++ [_])[i]? = _
      rw [List.getElem?_append_left (by rw [length_cons_dropLast]; exact hi)]
      exact getElem?_cons_dropLast _ h t i h1 hi
    · rw [if_neg happle]
      exact getElem?_cons_dropLast _ h t i h1 hi

theorem body_shift_witness :
    ∃ g1,
      Update
          { body := [⟨14, 12⟩, ⟨15, 12⟩, ⟨16, 12⟩], apple := ⟨3, 3⟩, timer := 8, speed := 15,
            score := 0, bestScore := 0, moveDirection := dirLeft } (noKeys 0 0) =
        some g1 ∧
      ∀ i, 1 ≤ i → i < 3 → g1.body[i]? = [(⟨14, 12⟩ : Position), ⟨15, 12⟩, ⟨16, 12⟩][i - 1]? :=
  (body_shift
    { body := [⟨14, 12⟩, ⟨15, 12⟩, ⟨16, 12⟩], apple := ⟨3, 3⟩, timer := 8, speed := 15,
      score := 0, bestScore := 0, moveDirection := dirLeft } (noKeys 0 0)
    (by decide) (by decide)
    (fun hb => absurd ((bitesItself_cons _ _ _ _ rfl).1 hb) (by decide))).2

/-! ## The double-ended-queue model -/

theorem run_before_eating : run newGame (eatFrames.take 84) = some beforeEating := by
  decide

/-- C17 (a frame on which the claim fails): in the state `beforeEating`, reached from `newGame`,
with body `[(3,4),(3,5),(3,6)]` on the grid and the apple on `(3,3)`, the next `Update` call is
a move Up that does not reset and eats the apple.  The double-ended-queue model, the new head
`(3,3)` pushed and the tail kept, gives `[(3,3),(3,4),(3,5),(3,6)]`; `Update` leaves
`[(3,3),(3,4),(3,5),(3,3)]`. -/
theorem deque_model_differs_on_growth :
    run newGame (eatFrames.take 84) = some beforeEating ∧
      (∀ p ∈ beforeEating.body, inGrid p) ∧
      isMoveTick beforeEating (noKeys 30 22) ∧
      ¬ bitesItself beforeEating (noKeys 30 22) ∧
      newHead beforeEating (noKeys 30 22) = some beforeEating.apple ∧
      Update beforeEating (noKeys 30 22) = some afterEating ∧
      dequeStep beforeEating.body ⟨3, 3⟩ true = [⟨3, 3⟩, ⟨3, 4⟩, ⟨3, 5⟩, ⟨3, 6⟩] ∧
      afterEating.body = [⟨3, 3⟩, ⟨3, 4⟩, ⟨3, 5⟩, ⟨3, 3⟩] ∧
      afterEating.body ≠ dequeStep beforeEating.body ⟨3, 3⟩ true :=
  ⟨run_before_eating, by decide, by decide,
    fun hb => absurd ((bitesItself_cons _ _ _ _ rfl).1 hb) (by decide), by decide, by decide,
    by decide, by decide, by decide⟩

/-- C17 (amended): for a state with a non-empty body, a move tick of `Update` that does not
reset leaves, when no apple is eaten, the old body with the new (wrapped) head pushed on the
front and the old tail popped, as in the double-ended-queue model.  When an apple is eaten the
old tail is popped all the same and a copy of the new head is appended at the end: the body has
the length of the model's body and agrees with it in all but the last segment. -/
theorem body_move_matches_deque (g : Game) (inp : Input) (hne : g.body ≠ [])
    (htick : isMoveTick g inp) (hno : ¬ bitesItself g inp) :
    ∃ g1 h, Update g inp = some g1 ∧ newHead g inp = some h ∧
      (h ≠ g.apple → g1.body = dequeStep g.body h false) ∧
      (h = g.apple →
        g1.body = dequeStep g.body h false ++ [h] ∧
        g1.body.length = (dequeStep g.body h true).length ∧
        g1.body.dropLast = (dequeStep g.body h true).dropLast) := by
  obtain ⟨h, t, hb⟩ : ∃ h t, g.body = h :: t := by
    cases hg : g.body with
    | nil => exact absurd hg hne
    | cons h t => exact ⟨h, t, rfl⟩
  have hm := (not_congr (bitesItself_cons g inp h t hb)).1 hno
  refine ⟨_, _, Update_move_on g inp h t hb htick hm, newHead_cons g inp h t hb, ?_, ?_⟩
  · intro happle
    rw [if_neg happle, hb]
    rfl
  · intro happle
    rw [if_pos happle, hb]
    refine ⟨rfl, ?_, ?_⟩
    · show ((_ :: (h :: t).dropLast) ++ [_]).length = (_ :: h :: t).length
      simp
    · show ((_ :: (h :: t).dropLast) ++ [_]).dropLast = (_ :: h :: t).dropLast
      rw [List.dropLast_concat]
      rfl

theorem body_move_matches_deque_witness :
    ∃ g1 h, Update beforeEating (noKeys 30 22) = some g1 ∧
      newHead beforeEating (noKeys 30 22) = some h ∧
      (h ≠ beforeEating.apple → g1.body = dequeStep beforeEating.body h false) ∧
      (h = beforeEating.apple →
        g1.body = dequeStep beforeEating.body h false ++ [h] ∧
        g1.body.length = (dequeStep beforeEating.body h true).length ∧
        g1.body.dropLast = (dequeStep beforeEating.body h true).dropLast) :=
  body_move_matches_deque beforeEating (noKeys 30 22) (by decide) (by decide)
    (fun hb => absurd ((bitesItself_cons _ _ _ _ rfl).1 hb) (by decide))

end GoSnake
